import Mathlib

/-!
Verification development for the caloric backend (Bun/TypeScript service in
`backend/src/server.ts`, `backend/src/config.ts`, `backend/src/mfp-client.ts`).

The development shallowly embeds the backend's search/detail caching pipeline
(`executeSearch`), the concurrency-bounded task runner (`runWithConcurrency`),
and the AI agent session/turn state machine (`runAssistantLoop`, `runToolCall`,
the `/ai/turn` handler) as executable Lean definitions, and proves the
documented properties about them.

Modelling conventions:
  * JSON values (`unknown` in TypeScript) are modelled by the inductive
    `JsVal`; JavaScript numbers are modelled as rationals (`Rat`).
  * Asynchronous functions become explicit state passing; the Postgres store
    becomes the `Db` structure; upstream HTTP calls become oracle functions
    carried in an environment structure.  A thrown exception from an upstream
    call is modelled as `Except.error message`.
  * `JSON.stringify` applied to tool outputs is modelled by injecting the
    structured value into the `MsgContent` inductive (stringification itself
    is an external concern).
  * The event-loop interleaving of `runWithConcurrency` is modelled by a
    small-step transition relation over runner states.
-/

namespace Caloric

/-! ## JavaScript value model -/

/-- Model of a parsed JSON / JavaScript value (`unknown` in the source).
Numbers are modelled as rationals. -/
inductive JsVal where
  | vNull
  | vBool (b : Bool)
  | vNum (q : Rat)
  | vStr (s : String)
  | vArr (elems : List JsVal)
  | vObj (fields : List (String × JsVal))

/-- Rendering of a JavaScript number by `String(x)`.  Exact for integers
(the only numeric renderings the embedded code paths depend on); non-integer
rationals are rendered as `num/den`, a placeholder for the decimal rendering
JavaScript would produce. -/
def jsNumToString (q : Rat) : String :=
  if q.den = 1 then toString q.num
  else toString q.num ++ "/" ++ toString q.den

/-- `String.prototype.trim` (modelled over the character list so that it
evaluates by reduction). -/
def jsTrim (s : String) : String :=
  ⟨((s.data.dropWhile Char.isWhitespace).reverse.dropWhile Char.isWhitespace).reverse⟩

/-- `String.prototype.toLowerCase` (ASCII case folding). -/
def jsToLower (s : String) : String :=
  ⟨s.data.map Char.toLower⟩

mutual

/-- Model of JavaScript `String(x)` coercion. -/
def jsToString : JsVal → String
  | .vNull => "null"
  | .vBool b => if b then "true" else "false"
  | .vNum q => jsNumToString q
  | .vStr s => s
  | .vArr xs => jsArrToString xs
  | .vObj _ => "[object Object]"

/-- `String(array)` joins the element renderings with commas. -/
def jsArrToString : List JsVal → String
  | [] => ""
  | [x] => jsToString x
  | x :: rest => jsToString x ++ "," ++ jsArrToString rest

end

/-- Property access `v.k` for object values; every other value yields
`undefined` (`none`).  This also models the optional-chained accesses
`row?.item?.id` in the source: chaining through `none` stays `none`. -/
def jsGet (v : JsVal) (key : String) : Option JsVal :=
  match v with
  | .vObj fields => (fields.find? (fun p => p.1 = key)).map (fun p => p.2)
  | _ => none

/-- JavaScript truthiness test (`!v` is `jsFalsy v`). -/
def jsFalsy (v : JsVal) : Bool :=
  match v with
  | .vNull => true
  | .vBool b => !b
  | .vNum q => q == 0
  | .vStr s => s == ""
  | .vArr _ => false
  | .vObj _ => false

/-- `typeof v === "object"` (true for `null`, arrays and plain objects). -/
def jsIsObjectType (v : JsVal) : Bool :=
  match v with
  | .vNull => true
  | .vArr _ => true
  | .vObj _ => true
  | _ => false

/-- `asRecord` from `server.ts`: a truthy non-array object, else `null`. -/
def asRecord (v : JsVal) : Option (List (String × JsVal)) :=
  match v with
  | .vObj fields => some fields
  | _ => none

/-- `asString` from `server.ts`: a string trims to a non-empty string, a
finite number renders via `String(value)`, everything else is `undefined`. -/
def asString (v : JsVal) : Option String :=
  match v with
  | .vStr s =>
      let normalized := jsTrim s
      if normalized.length > 0 then some normalized else none
  | .vNum q => some (jsNumToString q)
  | _ => none

/-- Decimal number parsing for strings fed to `Number(...)`: optional sign,
integer digits, optional fractional digits, optional decimal exponent.
Returns `none` when no digits are present or trailing characters remain. -/
def parseJsNumber (s : String) : Option Rat :=
  let cs := s.toList
  let step1 : Int × List Char :=
    match cs with
    | '-' :: rest => (-1, rest)
    | '+' :: rest => (1, rest)
    | _ => (1, cs)
  let intPart := step1.2.takeWhile Char.isDigit
  let afterInt := step1.2.dropWhile Char.isDigit
  let fracInfo : List Char × List Char :=
    match afterInt with
    | '.' :: rest => (rest.takeWhile Char.isDigit, rest.dropWhile Char.isDigit)
    | _ => ([], afterInt)
  let fracPart := fracInfo.1
  let afterFrac := fracInfo.2
  if intPart.isEmpty && fracPart.isEmpty then none
  else
    let digitsVal : List Char → Nat := fun ds =>
      ds.foldl (fun acc c => acc * 10 + (c.toNat - '0'.toNat)) 0
    let mantissa : Rat :=
      (digitsVal intPart : Rat) + (digitsVal fracPart : Rat) / ((10 : Rat) ^ fracPart.length)
    let expInfo : Option (Int × List Char) :=
      match afterFrac with
      | 'e' :: rest =>
          match rest with
          | '-' :: rest2 => some (-1, rest2)
          | '+' :: rest2 => some (1, rest2)
          | _ => some (1, rest)
      | 'E' :: rest =>
          match rest with
          | '-' :: rest2 => some (-1, rest2)
          | '+' :: rest2 => some (1, rest2)
          | _ => some (1, rest)
      | _ => none
    match expInfo with
    | none =>
        if afterFrac.isEmpty then some ((step1.1 : Rat) * mantissa) else none
    | some (esign, rest) =>
        let expDigits := rest.takeWhile Char.isDigit
        let afterExp := rest.dropWhile Char.isDigit
        if expDigits.isEmpty || !afterExp.isEmpty then none
        else
          let e := digitsVal expDigits
          let scaled :=
            if esign ≥ 0 then mantissa * (10 : Rat) ^ e
            else mantissa / (10 : Rat) ^ e
          some ((step1.1 : Rat) * scaled)

/-- `asNumber` from `server.ts`: finite numbers pass through, strings are
trimmed and parsed with `Number(...)`, everything else is `undefined`. -/
def asNumber (v : JsVal) : Option Rat :=
  match v with
  | .vNum q => some q
  | .vStr s =>
      let normalized := jsTrim s
      if normalized = "" then none
      else parseJsNumber normalized
  | _ => none

/-- `Math.round` on a finite number: round half toward positive infinity. -/
def jsMathRound (x : Rat) : Int := ⌊x + 1 / 2⌋

/-! ## Detail-key extraction (`extractDetailKeys`, server.ts) -/

/-- An (item id, version) pair referenced by the search payload. -/
structure DetailKey where
  foodId : String
  version : String
deriving DecidableEq, Repr

/-- The string key used by `extractDetailKeys` to de-duplicate pairs. -/
def detailKeyString (k : DetailKey) : String := k.foodId ++ ":" ++ k.version

/-- Loop body of `extractDetailKeys`: walk `items`, skip rows whose
`item.id` or `item.version` is absent, coerce both with `String(...)`,
and de-duplicate by the joined string key, first occurrence winning. -/
def extractDetailKeysLoop : List JsVal → List String → List DetailKey
  | [], _ => []
  | row :: rest, seen =>
      match (jsGet row "item").bind (fun it => jsGet it "id"),
            (jsGet row "item").bind (fun it => jsGet it "version") with
      | some idv, some verv =>
          let key : DetailKey := ⟨jsToString idv, jsToString verv⟩
          if detailKeyString key ∈ seen then
            extractDetailKeysLoop rest seen
          else
            key :: extractDetailKeysLoop rest (detailKeyString key :: seen)
      | _, _ => extractDetailKeysLoop rest seen

/-- `extractDetailKeys` from `server.ts`: for a non-object (or falsy) payload
or a missing/non-array `items` field, the key list is empty; otherwise the
de-duplicated (id, version) pairs of `items[].item`. -/
def extractDetailKeys (searchJson : JsVal) : List DetailKey :=
  if jsFalsy searchJson || !jsIsObjectType searchJson then []
  else
    match jsGet searchJson "items" with
    | some (.vArr rows) => extractDetailKeysLoop rows []
    | _ => []

/-- The (id, version) pair of one `items[]` row, if both fields are
present (spec-level helper). -/
def rowPair (row : JsVal) : Option DetailKey :=
  match (jsGet row "item").bind (fun it => jsGet it "id"),
        (jsGet row "item").bind (fun it => jsGet it "version") with
  | some idv, some verv => some ⟨jsToString idv, jsToString verv⟩
  | _, _ => none

/-- The raw (id, version) pairs of a search payload before de-duplication,
in payload order (entries missing id or version skipped). -/
def rawDetailPairs (searchJson : JsVal) : List DetailKey :=
  if jsFalsy searchJson || !jsIsObjectType searchJson then []
  else
    match jsGet searchJson "items" with
    | some (.vArr rows) => rows.filterMap rowPair
    | _ => []

/-- Generic first-occurrence-wins de-duplication by a key function. -/
def dedupFirstBy {α β : Type} [DecidableEq β] (key : α → β) : List α → List β → List α
  | [], _ => []
  | x :: rest, seen =>
      if key x ∈ seen then dedupFirstBy key rest seen
      else x :: dedupFirstBy key rest (key x :: seen)

/-- Spec-level variant of `extractDetailKeys`, written from the claim's words:
de-duplication by the exact (id, version) pair rather than by the joined
string key.  Used to compare the code against the claim. -/
def extractDetailKeysByPairSpec (searchJson : JsVal) : List DetailKey :=
  dedupFirstBy (fun k => k) (rawDetailPairs searchJson) []

/-! ## Meal and portion sanitization (server.ts) -/

/-- Meal categories accepted by the approval tool. -/
inductive Meal where
  | breakfast
  | lunch
  | dinner
  | snacks
deriving DecidableEq, Repr

def mealToString : Meal → String
  | .breakfast => "breakfast"
  | .lunch => "lunch"
  | .dinner => "dinner"
  | .snacks => "snacks"

/-- `normalizeMeal` from `server.ts`: trim/lowercase a string input and fall
back to `lunch` for anything unrecognized. -/
def normalizeMeal (meal : Option JsVal) : Meal :=
  let normalized :=
    match meal with
    | some (.vStr s) => jsToLower (jsTrim s)
    | _ => ""
  if normalized = "breakfast" then .breakfast
  else if normalized = "lunch" then .lunch
  else if normalized = "dinner" then .dinner
  else if normalized = "snacks" then .snacks
  else .lunch

/-- `sanitizePortion` from `server.ts`: non-numeric input becomes `1`;
numeric input is floored at `0.25` and rounded to the nearest quarter. -/
def sanitizePortion (value : Option JsVal) : Rat :=
  match value.bind asNumber with
  | none => 1
  | some parsed =>
      let bounded := max (1 / 4 : Rat) parsed
      (jsMathRound (bounded * 4) : Rat) / 4

/-! ## Response cache data model (db/schema.ts, server.ts) -/

/-- A row of `mfp_search_responses`. -/
structure SearchRecord where
  id : Nat
  query : String
  offset : Int
  maxItems : Int
  countryCode : String
  resourceType : String
  mfpUrl : String
  mfpStatus : Int
  responseJson : Option JsVal
  responseText : Option String
  createdAt : Int

/-- A row of `mfp_food_detail_responses`. -/
structure DetailRecord where
  id : Nat
  searchResponseId : Nat
  foodId : String
  version : String
  mfpUrl : String
  mfpStatus : Int
  responseJson : Option JsVal
  responseText : Option String
  createdAt : Int

/-- The relational store, with per-table identity counters. -/
structure Db where
  searches : List SearchRecord
  details : List DetailRecord
  nextSearchId : Nat
  nextDetailId : Nat

/-- The search 5-tuple identifying a cached search request. -/
structure SearchTuple where
  query : String
  offset : Int
  maxItems : Int
  countryCode : String
  resourceType : String
deriving DecidableEq, Repr

/-- Whether a stored search row matches the request tuple exactly. -/
def searchMatches (r : SearchRecord) (t : SearchTuple) : Prop :=
  r.query = t.query ∧ r.offset = t.offset ∧ r.maxItems = t.maxItems ∧
    r.countryCode = t.countryCode ∧ r.resourceType = t.resourceType

instance (r : SearchRecord) (t : SearchTuple) : Decidable (searchMatches r t) := by
  unfold searchMatches; infer_instance

/-- `ORDER BY created_at DESC, id DESC` comparison: `a` strictly precedes
`b`. -/
def moreRecentSearch (a b : SearchRecord) : Prop :=
  b.createdAt < a.createdAt ∨ (a.createdAt = b.createdAt ∧ b.id < a.id)

instance (a b : SearchRecord) : Decidable (moreRecentSearch a b) := by
  unfold moreRecentSearch; infer_instance

/-- `findCachedSearch` from `server.ts`: the most recent row matching the
exact 5-tuple, by creation time then identity descending. -/
def findCachedSearch (searches : List SearchRecord) (t : SearchTuple) :
    Option SearchRecord :=
  match searches with
  | [] => none
  | r :: rest =>
      let b := findCachedSearch rest t
      if searchMatches r t then
        match b with
        | none => some r
        | some c => if moreRecentSearch r c then some r else some c
      else b

/-- `ORDER BY created_at DESC, id DESC` for detail rows. -/
def moreRecentDetail (a b : DetailRecord) : Prop :=
  b.createdAt < a.createdAt ∨ (a.createdAt = b.createdAt ∧ b.id < a.id)

instance (a b : DetailRecord) : Decidable (moreRecentDetail a b) := by
  unfold moreRecentDetail; infer_instance

/-- `findCachedDetail` from `server.ts`: the most recent row for the
(item id, version) pair, independent of which search produced it. -/
def findCachedDetail (details : List DetailRecord) (foodId version : String) :
    Option DetailRecord :=
  match details with
  | [] => none
  | r :: rest =>
      let b := findCachedDetail rest foodId version
      if r.foodId = foodId ∧ r.version = version then
        match b with
        | none => some r
        | some c => if moreRecentDetail r c then some r else some c
      else b

/-- Field bundle passed to `saveDetailForSearch`. -/
structure DetailFields where
  searchResponseId : Nat
  foodId : String
  version : String
  mfpUrl : String
  mfpStatus : Int
  responseJson : Option JsVal
  responseText : Option String

/-- `saveDetailForSearch` from `server.ts`: insert with
`onConflictDoNothing` over the unique index
(`search_response_id`, `food_id`, `version`). -/
def saveDetailForSearch (db : Db) (now : Int) (p : DetailFields) : Db :=
  if db.details.any (fun r =>
      r.searchResponseId == p.searchResponseId &&
      r.foodId == p.foodId && r.version == p.version) then
    db
  else
    { db with
      details := db.details ++
        [{ id := db.nextDetailId
           searchResponseId := p.searchResponseId
           foodId := p.foodId
           version := p.version
           mfpUrl := p.mfpUrl
           mfpStatus := p.mfpStatus
           responseJson := p.responseJson
           responseText := p.responseText
           createdAt := now }]
      nextDetailId := db.nextDetailId + 1 }

/-! ## Upstream client and search orchestrator (mfp-client.ts, server.ts) -/

/-- Shape of an upstream HTTP response as returned by `mfp-client.ts`
(`status`, final `url`, parsed `json` or raw `text`). -/
structure UpstreamResp where
  status : Int
  url : String
  json : Option JsVal
  text : Option String

/-- Oracles for the two outbound upstream calls and the relevant
configuration.  A thrown exception (network error, timeout) is modelled by
`Except.error message`. -/
structure SearchEnv where
  searchNutrition : SearchTuple → UpstreamResp
  fetchFoodDetail : String → String → Except String UpstreamResp
  mfpBaseUrl : String
  detailConcurrency : Nat

/-- One entry of the `details[]` output of `executeSearch`. -/
structure DetailPayload where
  foodId : String
  version : String
  status : Int
  data : Option JsVal
  text : Option String

/-- The `search` part of the `executeSearch` output. -/
structure SearchPayloadOut where
  status : Int
  url : String
  data : Option JsVal
  text : Option String

/-- `toSearchPayload` from `server.ts`. -/
def toSearchPayload (r : SearchRecord) : SearchPayloadOut :=
  { status := r.mfpStatus, url := r.mfpUrl, data := r.responseJson, text := r.responseText }

/-- `toDetailPayload` from `server.ts` (stored-detail shape inlined). -/
def toDetailPayload (key : DetailKey) (status : Int) (data : Option JsVal)
    (text : Option String) : DetailPayload :=
  { foodId := key.foodId, version := key.version, status := status, data := data, text := text }

/-- Aggregate payload returned by `executeSearch`. -/
structure SearchResponsePayload where
  searchResponseId : Nat
  search : SearchPayloadOut
  detailCount : Nat
  details : List DetailPayload

/-- Request parameters of `executeSearch`. -/
structure SearchParams where
  query : String
  offset : Int
  maxItems : Int
  countryCode : String
  resourceType : String
  includeDetails : Bool

def SearchParams.tuple (p : SearchParams) : SearchTuple :=
  { query := p.query, offset := p.offset, maxItems := p.maxItems,
    countryCode := p.countryCode, resourceType := p.resourceType }

/-- One detail task of `executeSearch` (`detailTasks` closure in
`server.ts`): reuse the latest cached detail for the pair (copying it
forward under the current search id), otherwise fetch upstream; a thrown
fetch is converted into a synthetic status-0 record.  The returned flag
records whether an upstream detail fetch was attempted. -/
def detailTask (env : SearchEnv) (searchResponseId : Nat) (key : DetailKey)
    (db : Db) (now : Int) : DetailPayload × Db × Bool :=
  match findCachedDetail db.details key.foodId key.version with
  | some cached =>
      (toDetailPayload key cached.mfpStatus cached.responseJson cached.responseText,
       saveDetailForSearch db now
         { searchResponseId := searchResponseId
           foodId := key.foodId, version := key.version
           mfpUrl := cached.mfpUrl, mfpStatus := cached.mfpStatus
           responseJson := cached.responseJson, responseText := cached.responseText },
       false)
  | none =>
      match env.fetchFoodDetail key.foodId key.version with
      | .ok r =>
          (toDetailPayload key r.status r.json r.text,
           saveDetailForSearch db now
             { searchResponseId := searchResponseId
               foodId := key.foodId, version := key.version
               mfpUrl := r.url, mfpStatus := r.status
               responseJson := r.json, responseText := r.text },
           true)
      | .error message =>
          let fallbackUrl := env.mfpBaseUrl ++ "/api/services/foods/" ++ key.foodId ++
            "?version=" ++ key.version
          (toDetailPayload key 0 none (some message),
           saveDetailForSearch db now
             { searchResponseId := searchResponseId
               foodId := key.foodId, version := key.version
               mfpUrl := fallbackUrl, mfpStatus := 0
               responseJson := none, responseText := some message },
           true)

/-- The detail tasks of one search, run in submission order.  The source
executes them through `runWithConcurrency`; the runner's order-preservation
theorem (`runWithConcurrency` model below) justifies this sequential,
order-preserving presentation.  The final component counts upstream detail
fetch attempts. -/
def runDetailPhase (env : SearchEnv) (searchResponseId : Nat) :
    List DetailKey → Db → Int → List DetailPayload × Db × Nat
  | [], db, _ => ([], db, 0)
  | key :: rest, db, now =>
      let step := detailTask env searchResponseId key db now
      let tail := runDetailPhase env searchResponseId rest step.2.1 now
      (step.1 :: tail.1, tail.2.1, (if step.2.2 then 1 else 0) + tail.2.2)

/-- `executeSearch` from `server.ts`.  The final `Nat` counts upstream
search calls issued by this invocation (0 or 1). -/
def executeSearch (env : SearchEnv) (db : Db) (now : Int) (p : SearchParams) :
    SearchResponsePayload × Db × Nat :=
  let t := p.tuple
  let base : Nat × SearchPayloadOut × Db × Nat :=
    match findCachedSearch db.searches t with
    | some cached => (cached.id, toSearchPayload cached, db, 0)
    | none =>
        let r := env.searchNutrition t
        let newRow : SearchRecord :=
          { id := db.nextSearchId
            query := p.query, offset := p.offset, maxItems := p.maxItems
            countryCode := p.countryCode, resourceType := p.resourceType
            mfpUrl := r.url, mfpStatus := r.status
            responseJson := r.json, responseText := r.text
            createdAt := now }
        (db.nextSearchId,
         { status := r.status, url := r.url, data := r.json, text := r.text },
         { db with searches := db.searches ++ [newRow], nextSearchId := db.nextSearchId + 1 },
         1)
  let searchResponseId := base.1
  let searchPayload := base.2.1
  let db1 := base.2.2.1
  let searchCalls := base.2.2.2
  let dataUsable : Option JsVal :=
    match searchPayload.data with
    | none => none
    | some v => if jsFalsy v then none else some v
  if !p.includeDetails then
    ({ searchResponseId := searchResponseId, search := searchPayload,
       detailCount := 0, details := [] }, db1, searchCalls)
  else
    match dataUsable with
    | none =>
        ({ searchResponseId := searchResponseId, search := searchPayload,
           detailCount := 0, details := [] }, db1, searchCalls)
    | some data =>
        let keys := extractDetailKeys data
        let phase := runDetailPhase env searchResponseId keys db1 now
        ({ searchResponseId := searchResponseId, search := searchPayload,
           detailCount := phase.1.length, details := phase.1 }, phase.2.1, searchCalls)

/-! ## Concurrency-bounded task runner (`runWithConcurrency`, server.ts)

The source spawns `Math.min(concurrency, tasks.length)` async workers over a
shared cursor.  Under the event-loop execution model, the read of `cursor`
and its increment happen atomically (no suspension point between them),
while the `await tasks[current]()` may resume in any order.  We model this
as a transition system: each worker is either ready to claim, running a
claimed task index, or done; a scheduler step either lets a ready worker
claim the next index (or retire when the cursor is exhausted) or lets a
running worker's awaited task complete, writing its result. -/

/-- Phase of one logical worker of `runWithConcurrency`. -/
inductive WorkerPhase where
  | ready
  | running (i : Nat)
  | done
deriving DecidableEq, Repr

/-- Shared state of the runner: the claim cursor, the pre-sized results
array, and the worker pool. -/
structure RunnerState (α : Type) where
  cursor : Nat
  results : List (Option α)
  workers : List WorkerPhase
deriving DecidableEq

/-- Initial runner state for `runWithConcurrency(tasks, concurrency)`:
cursor at zero, a `tasks.length`-sized empty results array, and
`min concurrency tasks.length` ready workers. -/
def runnerInit {α : Type} (tasks : List α) (concurrency : Nat) : RunnerState α :=
  { cursor := 0
    results := List.replicate tasks.length none
    workers := List.replicate (min concurrency tasks.length) .ready }

/-- One scheduler step of the runner.  `tasks` gives each task's eventual
result value (task `i` resolves to `tasks[i]`). -/
inductive RunnerStep {α : Type} (tasks : List α) :
    RunnerState α → RunnerState α → Prop where
  | claim (s : RunnerState α) (w : Nat)
      (hw : s.workers[w]? = some .ready)
      (hc : s.cursor < tasks.length) :
      RunnerStep tasks s
        { cursor := s.cursor + 1
          results := s.results
          workers := s.workers.set w (.running s.cursor) }
  | retire (s : RunnerState α) (w : Nat)
      (hw : s.workers[w]? = some .ready)
      (hc : tasks.length ≤ s.cursor) :
      RunnerStep tasks s
        { cursor := s.cursor
          results := s.results
          workers := s.workers.set w .done }
  | complete (s : RunnerState α) (w : Nat) (i : Nat)
      (hw : s.workers[w]? = some (.running i))
      (hi : i < tasks.length) :
      RunnerStep tasks s
        { cursor := s.cursor
          results := s.results.set i (some (tasks.get ⟨i, hi⟩))
          workers := s.workers.set w .ready }

/-- Reachability of runner states by scheduler interleavings. -/
def RunnerReachable {α : Type} (tasks : List α) (concurrency : Nat)
    (s : RunnerState α) : Prop :=
  Relation.ReflTransGen (RunnerStep tasks) (runnerInit tasks concurrency) s

/-- The runner has finished: `Promise.all(workers)` has resolved. -/
def RunnerDone {α : Type} (s : RunnerState α) : Prop :=
  ∀ p ∈ s.workers, p = WorkerPhase.done

/-- Safety invariant of the runner: the cursor is bounded, results are
pre-sized, a written slot holds its task's value and lies below the cursor,
running workers hold distinct unwritten indices below the cursor, every
claimed index is written or being run, and a retired worker certifies an
exhausted cursor. -/
def RunnerInv {α : Type} (tasks : List α) (s : RunnerState α) : Prop :=
  s.results.length = tasks.length ∧
  s.cursor ≤ tasks.length ∧
  (∀ (j : Nat) (v : α), s.results[j]? = some (some v) →
    j < s.cursor ∧ ∃ hj : j < tasks.length, v = tasks.get ⟨j, hj⟩) ∧
  (∀ w i : Nat, s.workers[w]? = some (WorkerPhase.running i) →
    i < s.cursor ∧ s.results[i]? = some none) ∧
  (∀ w w2 i : Nat, w ≠ w2 → s.workers[w]? = some (WorkerPhase.running i) →
    s.workers[w2]? ≠ some (WorkerPhase.running i)) ∧
  (∀ j, j < s.cursor →
    (∃ v, s.results[j]? = some (some v)) ∨
    (∃ w : Nat, s.workers[w]? = some (WorkerPhase.running j))) ∧
  ((∃ w : Nat, s.workers[w]? = some WorkerPhase.done) → tasks.length ≤ s.cursor)

theorem runnerInv_init {α : Type} (tasks : List α) (concurrency : Nat) :
    RunnerInv tasks (runnerInit tasks concurrency) := by
  refine ⟨by simp [runnerInit], by simp [runnerInit], ?_, ?_, ?_, ?_, ?_⟩
  · intro j v hj
    simp only [runnerInit, List.getElem?_replicate] at hj
    split at hj
    · exact absurd hj (by simp)
    · exact absurd hj (by simp)
  · intro w i hw
    simp only [runnerInit, List.getElem?_replicate] at hw
    split at hw
    · exact absurd hw (by simp)
    · exact absurd hw (by simp)
  · intro w w2 i _ hw
    simp only [runnerInit, List.getElem?_replicate] at hw
    split at hw
    · exact absurd hw (by simp)
    · exact absurd hw (by simp)
  · intro j hj
    simp only [runnerInit] at hj
    exact absurd hj (Nat.not_lt_zero j)
  · rintro ⟨w, hw⟩
    simp only [runnerInit, List.getElem?_replicate] at hw
    split at hw
    · exact absurd hw (by simp)
    · exact absurd hw (by simp)

theorem runnerInv_step {α : Type} {tasks : List α} {s s2 : RunnerState α}
    (hs : RunnerInv tasks s) (h : RunnerStep tasks s s2) : RunnerInv tasks s2 := by
  obtain ⟨hlen, hcur, hres, hrun, hdist, hcov, hdone⟩ := hs
  cases h with
  | claim w hw hc =>
      have hwlt : w < s.workers.length := by
        by_contra hge
        rw [List.getElem?_eq_none (Nat.le_of_not_lt hge)] at hw
        exact absurd hw (by simp)
      have hcurNone : s.results[s.cursor]? = some none := by
        have hcl : s.cursor < s.results.length := hlen ▸ hc
        obtain ⟨x, hx⟩ : ∃ x, s.results[s.cursor]? = some x :=
          ⟨s.results[s.cursor], List.getElem?_eq_getElem hcl⟩
        cases x with
        | none => exact hx
        | some v => exact absurd (hres _ _ hx).1 (Nat.lt_irrefl _)
      refine ⟨hlen, hc, ?_, ?_, ?_, ?_, ?_⟩
      · intro j v hj
        exact ⟨Nat.lt_succ_of_lt (hres j v hj).1, (hres j v hj).2⟩
      · intro w2 i h2
        by_cases hww : w2 = w
        · subst hww
          rw [List.getElem?_set_self hwlt] at h2
          obtain rfl : i = s.cursor := by
            cases h2; rfl
          exact ⟨Nat.lt_succ_self _, hcurNone⟩
        · rw [List.getElem?_set_ne (fun he => hww he.symm)] at h2
          exact ⟨Nat.lt_succ_of_lt (hrun w2 i h2).1, (hrun w2 i h2).2⟩
      · intro w1 w2 i hne h1 h2
        by_cases h1w : w1 = w
        · subst h1w
          rw [List.getElem?_set_self hwlt] at h1
          obtain rfl : i = s.cursor := by cases h1; rfl
          rw [List.getElem?_set_ne hne] at h2
          exact absurd (hrun w2 _ h2).1 (Nat.lt_irrefl _)
        · by_cases h2w : w2 = w
          · subst h2w
            rw [List.getElem?_set_self hwlt] at h2
            obtain rfl : i = s.cursor := by cases h2; rfl
            rw [List.getElem?_set_ne (fun he => h1w he.symm)] at h1
            exact absurd (hrun w1 _ h1).1 (Nat.lt_irrefl _)
          · rw [List.getElem?_set_ne (fun he => h1w he.symm)] at h1
            rw [List.getElem?_set_ne (fun he => h2w he.symm)] at h2
            exact hdist w1 w2 i hne h1 h2
      · intro j hj
        rcases Nat.lt_or_ge j s.cursor with hlt | hge
        · rcases hcov j hlt with ⟨v, hv⟩ | ⟨w4, hw4⟩
          · exact Or.inl ⟨v, hv⟩
          · have h4w : w4 ≠ w := by
              intro he
              subst he
              rw [hw4] at hw
              exact absurd hw (by simp)
            refine Or.inr ⟨w4, ?_⟩
            rw [List.getElem?_set_ne (fun he => h4w he.symm)]
            exact hw4
        · obtain rfl : j = s.cursor := Nat.le_antisymm (Nat.lt_succ_iff.1 hj) hge
          refine Or.inr ⟨w, ?_⟩
          rw [List.getElem?_set_self hwlt]
      · rintro ⟨w2, hw2⟩
        by_cases hww : w2 = w
        · subst hww
          rw [List.getElem?_set_self hwlt] at hw2
          exact absurd hw2 (by simp)
        · rw [List.getElem?_set_ne (fun he => hww he.symm)] at hw2
          exact Nat.le_succ_of_le (hdone ⟨w2, hw2⟩)
  | retire w hw hc =>
      have hwlt : w < s.workers.length := by
        by_contra hge
        rw [List.getElem?_eq_none (Nat.le_of_not_lt hge)] at hw
        exact absurd hw (by simp)
      refine ⟨hlen, hcur, hres, ?_, ?_, ?_, fun _ => hc⟩
      · intro w2 i h2
        by_cases hww : w2 = w
        · subst hww
          rw [List.getElem?_set_self hwlt] at h2
          exact absurd h2 (by simp)
        · rw [List.getElem?_set_ne (fun he => hww he.symm)] at h2
          exact hrun w2 i h2
      · intro w1 w2 i hne h1 h2
        by_cases h1w : w1 = w
        · subst h1w
          rw [List.getElem?_set_self hwlt] at h1
          exact absurd h1 (by simp)
        · by_cases h2w : w2 = w
          · subst h2w
            rw [List.getElem?_set_self hwlt] at h2
            exact absurd h2 (by simp)
          · rw [List.getElem?_set_ne (fun he => h1w he.symm)] at h1
            rw [List.getElem?_set_ne (fun he => h2w he.symm)] at h2
            exact hdist w1 w2 i hne h1 h2
      · intro j hj
        rcases hcov j hj with ⟨v, hv⟩ | ⟨w4, hw4⟩
        · exact Or.inl ⟨v, hv⟩
        · have h4w : w4 ≠ w := by
            intro he
            subst he
            rw [hw4] at hw
            exact absurd hw (by simp)
          refine Or.inr ⟨w4, ?_⟩
          rw [List.getElem?_set_ne (fun he => h4w he.symm)]
          exact hw4
  | complete w i hw hi =>
      have hwlt : w < s.workers.length := by
        by_contra hge
        rw [List.getElem?_eq_none (Nat.le_of_not_lt hge)] at hw
        exact absurd hw (by simp)
      have hilt : i < s.results.length := hlen ▸ hi
      refine ⟨by simpa using hlen, hcur, ?_, ?_, ?_, ?_, ?_⟩
      · intro j v hj
        by_cases hji : j = i
        · subst hji
          rw [List.getElem?_set_self hilt] at hj
          obtain rfl : v = tasks.get ⟨j, hi⟩ := by cases hj; rfl
          exact ⟨(hrun w j hw).1, hi, rfl⟩
        · rw [List.getElem?_set_ne (fun he => hji he.symm)] at hj
          exact hres j v hj
      · intro w2 i2 h2
        by_cases hww : w2 = w
        · subst hww
          rw [List.getElem?_set_self hwlt] at h2
          exact absurd h2 (by simp)
        · rw [List.getElem?_set_ne (fun he => hww he.symm)] at h2
          have hii : i2 ≠ i := by
            intro he
            subst he
            exact hdist w w2 i2 (fun he2 => hww he2.symm) hw h2
          refine ⟨(hrun w2 i2 h2).1, ?_⟩
          rw [List.getElem?_set_ne (fun he => hii he.symm)]
          exact (hrun w2 i2 h2).2
      · intro w1 w2 i2 hne h1 h2
        by_cases h1w : w1 = w
        · subst h1w
          rw [List.getElem?_set_self hwlt] at h1
          exact absurd h1 (by simp)
        · by_cases h2w : w2 = w
          · subst h2w
            rw [List.getElem?_set_self hwlt] at h2
            exact absurd h2 (by simp)
          · rw [List.getElem?_set_ne (fun he => h1w he.symm)] at h1
            rw [List.getElem?_set_ne (fun he => h2w he.symm)] at h2
            exact hdist w1 w2 i2 hne h1 h2
      · intro j hj
        by_cases hji : j = i
        · subst hji
          refine Or.inl ⟨tasks.get ⟨j, hi⟩, ?_⟩
          rw [List.getElem?_set_self hilt]
        · rcases hcov j hj with ⟨v, hv⟩ | ⟨w4, hw4⟩
          · refine Or.inl ⟨v, ?_⟩
            rw [List.getElem?_set_ne (fun he => hji he.symm)]
            exact hv
          · have h4w : w4 ≠ w := by
              intro he
              subst he
              rw [hw4] at hw
              have : j = i := by cases hw; rfl
              exact hji this
            refine Or.inr ⟨w4, ?_⟩
            rw [List.getElem?_set_ne (fun he => h4w he.symm)]
            exact hw4
      · rintro ⟨w2, hw2⟩
        by_cases hww : w2 = w
        · subst hww
          rw [List.getElem?_set_self hwlt] at hw2
          exact absurd hw2 (by simp)
        · rw [List.getElem?_set_ne (fun he => hww he.symm)] at hw2
          exact hdone ⟨w2, hw2⟩

theorem runnerInv_reachable {α : Type} {tasks : List α} {concurrency : Nat}
    {s : RunnerState α} (h : RunnerReachable tasks concurrency s) :
    RunnerInv tasks s := by
  induction h with
  | refl => exact runnerInv_init tasks concurrency
  | tail _ hstep ih => exact runnerInv_step ih hstep

theorem runnerStep_workers_length {α : Type} {tasks : List α}
    {s s2 : RunnerState α} (h : RunnerStep tasks s s2) :
    s2.workers.length = s.workers.length := by
  cases h <;> simp

theorem runnerReachable_workers_length {α : Type} {tasks : List α}
    {concurrency : Nat} {s : RunnerState α}
    (h : RunnerReachable tasks concurrency s) :
    s.workers.length = min concurrency tasks.length := by
  induction h with
  | refl => simp [runnerInit]
  | tail _ hstep ih => rw [runnerStep_workers_length hstep, ih]

theorem runnerDone_results {α : Type} {tasks : List α} {concurrency : Nat}
    {s : RunnerState α} (hc : 1 ≤ concurrency)
    (hreach : RunnerReachable tasks concurrency s) (hdone : RunnerDone s) :
    s.results = tasks.map some := by
  obtain ⟨hlen, hcur, hres, _, _, hcov, hfin⟩ := runnerInv_reachable hreach
  have hwl := runnerReachable_workers_length hreach
  have hcursor : s.cursor = tasks.length := by
    rcases Nat.eq_zero_or_pos tasks.length with hn | hn
    · exact Nat.le_antisymm (hn ▸ hcur) (hn ▸ Nat.zero_le _)
    · have hmin : 1 ≤ min concurrency tasks.length := le_min hc hn
      have hex : ∃ w : Nat, s.workers[w]? = some WorkerPhase.done := by
        refine ⟨0, ?_⟩
        have h0 : 0 < s.workers.length := hwl ▸ hmin
        rw [List.getElem?_eq_getElem h0]
        exact congrArg some (hdone _ (List.getElem_mem h0))
      exact Nat.le_antisymm hcur (hfin hex)
  have hnorun : ∀ (w j : Nat), s.workers[w]? ≠ some (WorkerPhase.running j) := by
    intro w j hw
    rcases Nat.lt_or_ge w s.workers.length with hlt | hge
    · rw [List.getElem?_eq_getElem hlt] at hw
      have := hdone _ (List.getElem_mem hlt)
      rw [this] at hw
      exact absurd hw (by simp)
    · rw [List.getElem?_eq_none hge] at hw
      exact absurd hw (by simp)
  apply List.ext_getElem?
  intro j
  rcases Nat.lt_or_ge j tasks.length with hj | hj
  · have hjv : ∃ v, s.results[j]? = some (some v) := by
      rcases hcov j (hcursor ▸ hj) with hv | ⟨w, hw⟩
      · exact hv
      · exact absurd hw (hnorun w j)
    obtain ⟨v, hv⟩ := hjv
    obtain ⟨_, hjt, rfl⟩ := hres j v hv
    rw [hv, List.getElem?_map, List.getElem?_eq_getElem hj]
    rfl
  · rw [List.getElem?_eq_none (hlen ▸ hj), List.getElem?_eq_none (by simpa using hj)]

/-- C2: for every task list and concurrency at least 1, `runWithConcurrency`
spawns `min(concurrency, tasks.length)` workers; in every reachable state no
task index is claimed by two workers; and every completed run returns the
results array of the same length as the task list whose entry `i` is the
result of task `i`, regardless of the order in which tasks completed. -/
theorem runWithConcurrency_correct {α : Type} (tasks : List α) (concurrency : Nat)
    (s : RunnerState α) (hc : 1 ≤ concurrency)
    (hreach : RunnerReachable tasks concurrency s) :
    (runnerInit tasks concurrency).workers.length = min concurrency tasks.length ∧
    (∀ w w2 i : Nat, w ≠ w2 → s.workers[w]? = some (WorkerPhase.running i) →
      s.workers[w2]? ≠ some (WorkerPhase.running i)) ∧
    (RunnerDone s →
      s.results.length = tasks.length ∧ s.results = tasks.map some) := by
  refine ⟨by simp [runnerInit], ?_, ?_⟩
  · exact (runnerInv_reachable hreach).2.2.2.2.1
  · intro hdone
    exact ⟨(runnerInv_reachable hreach).1, runnerDone_results hc hreach hdone⟩

/-- Witness for `runWithConcurrency_correct`: a complete interleaved run of
two tasks under concurrency 1, whose tasks complete strictly in claimed
order, ends with the results in task-submission order. -/
theorem runWithConcurrency_correct_witness :
    ({ cursor := 2, results := [some 10, some 20],
       workers := [WorkerPhase.done] } : RunnerState Nat).results
      = ([10, 20] : List Nat).map some ∧
    (runnerInit ([10, 20] : List Nat) 1).workers.length = min 1 2 := by
  have step1 : RunnerStep ([10, 20] : List Nat)
      ⟨0, [none, none], [.ready]⟩ ⟨1, [none, none], [.running 0]⟩ :=
    RunnerStep.claim ⟨0, [none, none], [.ready]⟩ 0 rfl (by norm_num)
  have step2 : RunnerStep ([10, 20] : List Nat)
      ⟨1, [none, none], [.running 0]⟩ ⟨1, [some 10, none], [.ready]⟩ :=
    RunnerStep.complete ⟨1, [none, none], [.running 0]⟩ 0 0 rfl (by norm_num)
  have step3 : RunnerStep ([10, 20] : List Nat)
      ⟨1, [some 10, none], [.ready]⟩ ⟨2, [some 10, none], [.running 1]⟩ :=
    RunnerStep.claim ⟨1, [some 10, none], [.ready]⟩ 0 rfl (by norm_num)
  have step4 : RunnerStep ([10, 20] : List Nat)
      ⟨2, [some 10, none], [.running 1]⟩ ⟨2, [some 10, some 20], [.ready]⟩ :=
    RunnerStep.complete ⟨2, [some 10, none], [.running 1]⟩ 0 1 rfl (by norm_num)
  have step5 : RunnerStep ([10, 20] : List Nat)
      ⟨2, [some 10, some 20], [.ready]⟩ ⟨2, [some 10, some 20], [.done]⟩ :=
    RunnerStep.retire ⟨2, [some 10, some 20], [.ready]⟩ 0 rfl (by norm_num)
  have hreach : RunnerReachable ([10, 20] : List Nat) 1
      ⟨2, [some 10, some 20], [.done]⟩ :=
    Relation.ReflTransGen.head step1
      (Relation.ReflTransGen.head step2
        (Relation.ReflTransGen.head step3
          (Relation.ReflTransGen.head step4
            (Relation.ReflTransGen.single step5))))
  have hdone : RunnerDone (⟨2, [some 10, some 20], [.done]⟩ : RunnerState Nat) := by
    intro p hp
    simpa using hp
  have happ := runWithConcurrency_correct ([10, 20] : List Nat) 1
    ⟨2, [some 10, some 20], [.done]⟩ (le_refl 1) hreach
  exact ⟨(happ.2.2 hdone).2, happ.1⟩

/-! ## Theorems about detail-key extraction and portion sanitization -/

theorem extractDetailKeysLoop_eq_dedup (rows : List JsVal) :
    ∀ seen, extractDetailKeysLoop rows seen =
      dedupFirstBy detailKeyString (rows.filterMap rowPair) seen := by
  induction rows with
  | nil => intro seen; rfl
  | cons row rest ih =>
      intro seen
      cases h1 : (jsGet row "item").bind (fun it => jsGet it "id") with
      | none =>
          cases h2 : (jsGet row "item").bind (fun it => jsGet it "version") with
          | none =>
              simp only [extractDetailKeysLoop, rowPair, h1, h2, List.filterMap_cons]
              exact ih seen
          | some verv =>
              simp only [extractDetailKeysLoop, rowPair, h1, h2, List.filterMap_cons]
              exact ih seen
      | some idv =>
          cases h2 : (jsGet row "item").bind (fun it => jsGet it "version") with
          | none =>
              simp only [extractDetailKeysLoop, rowPair, h1, h2, List.filterMap_cons]
              exact ih seen
          | some verv =>
              simp only [extractDetailKeysLoop, rowPair, h1, h2, List.filterMap_cons,
                dedupFirstBy]
              by_cases hseen :
                  detailKeyString ⟨jsToString idv, jsToString verv⟩ ∈ seen
              · simp only [if_pos hseen]
                exact ih seen
              · simp only [if_neg hseen]
                exact congrArg _ (ih _)

theorem dedupFirstBy_keys_nodup {α β : Type} [DecidableEq β] (key : α → β)
    (l : List α) : ∀ seen : List β,
    ((dedupFirstBy key l seen).map key).Nodup ∧
    ∀ b ∈ (dedupFirstBy key l seen).map key, b ∉ seen := by
  induction l with
  | nil => intro seen; exact ⟨List.nodup_nil, by simp [dedupFirstBy]⟩
  | cons x rest ih =>
      intro seen
      by_cases hx : key x ∈ seen
      · simpa only [dedupFirstBy, if_pos hx] using ih seen
      · obtain ⟨ihn, ihs⟩ := ih (key x :: seen)
        refine ⟨?_, ?_⟩
        · simp only [dedupFirstBy, if_neg hx, List.map_cons, List.nodup_cons]
          refine ⟨fun hm => ?_, ihn⟩
          exact absurd (List.mem_cons_self (key x) seen) (ihs _ hm)
        · intro b hb
          simp only [dedupFirstBy, if_neg hx, List.map_cons, List.mem_cons] at hb
          rcases hb with rfl | hb
          · exact hx
          · intro hbs
            exact ihs b hb (List.mem_cons_of_mem _ hbs)

/-- C7 (amended): `extractDetailKeys` returns the (item id, version) pairs
found at `items[].item.{id,version}`, skipping entries missing id or
version, de-duplicated by the joined string key `id ++ ":" ++ version`
(not by exact pair) with the first occurrence winning and the order of
first appearance preserved; in particular the resulting string keys are
pairwise distinct, so a payload referencing the same pair twice yields
exactly one key. -/
theorem extractDetailKeys_dedup_by_string_key (searchJson : JsVal) :
    extractDetailKeys searchJson =
      dedupFirstBy detailKeyString (rawDetailPairs searchJson) [] ∧
    ((extractDetailKeys searchJson).map detailKeyString).Nodup := by
  have hmain : extractDetailKeys searchJson =
      dedupFirstBy detailKeyString (rawDetailPairs searchJson) [] := by
    unfold extractDetailKeys rawDetailPairs
    by_cases hobj : jsFalsy searchJson || !jsIsObjectType searchJson
    · simp [hobj, dedupFirstBy]
    · simp only [hobj, if_neg, Bool.false_eq_true, not_false_iff]
      cases hitems : jsGet searchJson "items" with
      | none => simp [dedupFirstBy]
      | some items =>
          cases items with
          | vArr rows => exact extractDetailKeysLoop_eq_dedup rows []
          | vNull => simp [dedupFirstBy]
          | vBool b => simp [dedupFirstBy]
          | vNum q => simp [dedupFirstBy]
          | vStr s => simp [dedupFirstBy]
          | vObj fields => simp [dedupFirstBy]
  exact ⟨hmain, hmain ▸ (dedupFirstBy_keys_nodup detailKeyString _ []).1⟩

/-- A search payload with two distinct (id, version) pairs whose joined
string keys collide: ("a:b", "c") and ("a", "b:c") both join to "a:b:c". -/
def collidingPayload : JsVal :=
  .vObj [("items", .vArr [
    .vObj [("item", .vObj [("id", .vStr "a:b"), ("version", .vStr "c")])],
    .vObj [("item", .vObj [("id", .vStr "a"), ("version", .vStr "b:c")])]])]

/-- C7 (counterexample): the claim's exact-pair de-duplication fails on the
code: a payload holding the two distinct pairs ("a:b","c") and ("a","b:c")
yields a single key, because `extractDetailKeys` de-duplicates by the
joined string `id ++ ":" ++ version`, under which the two distinct pairs
collide; exact-pair de-duplication would keep both. -/
theorem extractDetailKeys_pair_dedup_counterexample :
    extractDetailKeys collidingPayload ≠
      extractDetailKeysByPairSpec collidingPayload ∧
    extractDetailKeys collidingPayload = [⟨"a:b", "c"⟩] ∧
    extractDetailKeysByPairSpec collidingPayload =
      [⟨"a:b", "c"⟩, ⟨"a", "b:c"⟩] := by
  refine ⟨by decide, by decide, by decide⟩

theorem sanitizePortion_num (q : Rat) :
    sanitizePortion (some (.vNum q)) =
      (jsMathRound (max (1 / 4) q * 4) : Rat) / 4 := rfl

/-- C8: for every finite numeric portion input (numeric literal, or numeric
string parsed to the same rational), `sanitizePortion` returns the value
obtained by flooring the input at 0.25 and rounding to the nearest quarter
(ties up); the result is a multiple of 0.25 and at least 0.25; and the
inputs 0.1, 0.26, 1.37 and -3 sanitize to 0.25, 0.25, 1.25 and 0.25
respectively, with the rounding boundaries 1.125 and 1.375 going to 1.25
and 1.5. -/
theorem sanitizePortion_spec :
    (∀ v : JsVal, ∀ q : Rat, asNumber v = some q →
      sanitizePortion (some v) = (jsMathRound (max (1 / 4) q * 4) : Rat) / 4 ∧
      (1 / 4 : Rat) ≤ sanitizePortion (some v) ∧
      ∃ k : Int, sanitizePortion (some v) = (k : Rat) / 4) ∧
    sanitizePortion (some (.vNum (1 / 10))) = 1 / 4 ∧
    sanitizePortion (some (.vNum (26 / 100))) = 1 / 4 ∧
    sanitizePortion (some (.vNum (137 / 100))) = 5 / 4 ∧
    sanitizePortion (some (.vNum (-3))) = 1 / 4 ∧
    sanitizePortion (some (.vNum (1125 / 1000))) = 5 / 4 ∧
    sanitizePortion (some (.vNum (1375 / 1000))) = 3 / 2 := by
  have hval : ∀ v : JsVal, ∀ q : Rat, asNumber v = some q →
      sanitizePortion (some v) = (jsMathRound (max (1 / 4) q * 4) : Rat) / 4 := by
    intro v q hq
    simp only [sanitizePortion, Option.some_bind, hq]
  refine ⟨?_, ?_, ?_, ?_, ?_, ?_, ?_⟩
  · intro v q hq
    refine ⟨hval v q hq, ?_, ⟨jsMathRound (max (1 / 4) q * 4), hval v q hq⟩⟩
    rw [hval v q hq]
    have hk : (1 : Int) ≤ jsMathRound (max (1 / 4) q * 4) := by
      rw [jsMathRound]
      refine Int.le_floor.2 ?_
      have h1 : (1 / 4 : Rat) ≤ max (1 / 4) q := le_max_left _ _
      push_cast
      nlinarith
    have hk2 : (1 : Rat) ≤ (jsMathRound (max (1 / 4) q * 4) : Rat) := by
      exact_mod_cast hk
    linarith
  · rw [sanitizePortion_num, max_eq_left (by norm_num)]
    norm_num [jsMathRound, Int.floor_eq_iff]
  · rw [sanitizePortion_num, max_eq_right (by norm_num)]
    norm_num [jsMathRound, Int.floor_eq_iff]
  · rw [sanitizePortion_num, max_eq_right (by norm_num)]
    norm_num [jsMathRound, Int.floor_eq_iff]
  · rw [sanitizePortion_num, max_eq_left (by norm_num)]
    norm_num [jsMathRound, Int.floor_eq_iff]
  · rw [sanitizePortion_num, max_eq_right (by norm_num)]
    norm_num [jsMathRound, Int.floor_eq_iff]
  · rw [sanitizePortion_num, max_eq_right (by norm_num)]
    norm_num [jsMathRound, Int.floor_eq_iff]

/-- Witness for `sanitizePortion_spec` at the numeric input 2: the general
bound applies and yields a quarter-multiple of at least 0.25. -/
theorem sanitizePortion_spec_witness :
    (1 / 4 : Rat) ≤ sanitizePortion (some (.vNum 2)) ∧
    (∃ k : Int, sanitizePortion (some (.vNum 2)) = (k : Rat) / 4) ∧
    sanitizePortion (some (.vNum (26 / 100))) = 1 / 4 :=
  ⟨(sanitizePortion_spec.1 (.vNum 2) 2 rfl).2.1,
   (sanitizePortion_spec.1 (.vNum 2) 2 rfl).2.2,
   sanitizePortion_spec.2.2.1⟩

/-! ## Theorems about the search cache (`executeSearch`) -/

theorem saveDetailForSearch_searches (db : Db) (now : Int) (p : DetailFields) :
    (saveDetailForSearch db now p).searches = db.searches := by
  unfold saveDetailForSearch
  split <;> rfl

theorem detailTask_searches (env : SearchEnv) (sid : Nat) (key : DetailKey)
    (db : Db) (now : Int) :
    (detailTask env sid key db now).2.1.searches = db.searches := by
  unfold detailTask
  split
  · exact saveDetailForSearch_searches _ _ _
  · split
    · exact saveDetailForSearch_searches _ _ _
    · exact saveDetailForSearch_searches _ _ _

theorem runDetailPhase_searches (env : SearchEnv) (sid : Nat)
    (keys : List DetailKey) : ∀ (db : Db) (now : Int),
    (runDetailPhase env sid keys db now).2.1.searches = db.searches := by
  induction keys with
  | nil => intro db now; rfl
  | cons key rest ih =>
      intro db now
      unfold runDetailPhase
      rw [ih, detailTask_searches]

theorem findCachedSearch_none_append {l : List SearchRecord} {t : SearchTuple}
    (h : findCachedSearch l t = none) {x : SearchRecord}
    (hx : searchMatches x t) : findCachedSearch (l ++ [x]) t = some x := by
  induction l with
  | nil =>
      unfold findCachedSearch
      simp only [List.nil_append]
      rw [if_pos hx]
      rfl
  | cons r rest ih =>
      unfold findCachedSearch at h
      by_cases hr : searchMatches r t
      · rw [if_pos hr] at h
        cases hrest : findCachedSearch rest t <;> rw [hrest] at h
        · exact Option.noConfusion h
        · dsimp only at h
          split at h <;> exact Option.noConfusion h
      · rw [if_neg hr] at h
        have := ih h
        show findCachedSearch (r :: (rest ++ [x])) t = some x
        unfold findCachedSearch
        rw [if_neg hr]
        exact this

theorem executeSearch_cached {env : SearchEnv} {db : Db} {now : Int}
    {p : SearchParams} {r : SearchRecord}
    (h : findCachedSearch db.searches p.tuple = some r) :
    (executeSearch env db now p).1.searchResponseId = r.id ∧
    (executeSearch env db now p).1.search = toSearchPayload r ∧
    (executeSearch env db now p).2.2 = 0 ∧
    (executeSearch env db now p).2.1.searches = db.searches := by
  simp only [executeSearch, h]
  split
  · exact ⟨rfl, rfl, rfl, rfl⟩
  · split
    · exact ⟨rfl, rfl, rfl, rfl⟩
    · exact ⟨rfl, rfl, rfl, runDetailPhase_searches _ _ _ _ _⟩

/-- The search row inserted by `executeSearch` on a cache miss. -/
def newSearchRow (env : SearchEnv) (db : Db) (now : Int) (p : SearchParams) :
    SearchRecord :=
  { id := db.nextSearchId
    query := p.query, offset := p.offset, maxItems := p.maxItems
    countryCode := p.countryCode, resourceType := p.resourceType
    mfpUrl := (env.searchNutrition p.tuple).url
    mfpStatus := (env.searchNutrition p.tuple).status
    responseJson := (env.searchNutrition p.tuple).json
    responseText := (env.searchNutrition p.tuple).text
    createdAt := now }

theorem executeSearch_uncached {env : SearchEnv} {db : Db} {now : Int}
    {p : SearchParams}
    (h : findCachedSearch db.searches p.tuple = none) :
    (executeSearch env db now p).1.searchResponseId = db.nextSearchId ∧
    (executeSearch env db now p).2.2 = 1 ∧
    (executeSearch env db now p).2.1.searches =
      db.searches ++ [newSearchRow env db now p] ∧
    searchMatches (newSearchRow env db now p) p.tuple ∧
    (newSearchRow env db now p).id = db.nextSearchId := by
  simp only [executeSearch, h, newSearchRow]
  split
  · exact ⟨rfl, rfl, rfl, by simp [searchMatches, SearchParams.tuple], trivial⟩
  · split
    · exact ⟨rfl, rfl, rfl, by simp [searchMatches, SearchParams.tuple], trivial⟩
    · refine ⟨rfl, rfl, ?_, by simp [searchMatches, SearchParams.tuple], trivial⟩
      rw [runDetailPhase_searches]

/-- C1: `executeSearch` is cache-idempotent.  If a cached Search Response
Record matches the exact 5-tuple, `executeSearch` reuses its id and payload
verbatim and issues no upstream search call; and two consecutive calls with
identical parameters return the same `searchResponseId` with at most one
upstream search call in total. -/
theorem executeSearch_cache_idempotent :
    (∀ (env : SearchEnv) (db : Db) (now : Int) (p : SearchParams)
        (r : SearchRecord),
      findCachedSearch db.searches p.tuple = some r →
      (executeSearch env db now p).1.searchResponseId = r.id ∧
      (executeSearch env db now p).1.search = toSearchPayload r ∧
      (executeSearch env db now p).2.2 = 0) ∧
    (∀ (env : SearchEnv) (db : Db) (now1 now2 : Int) (p : SearchParams),
      (executeSearch env db now1 p).1.searchResponseId =
        (executeSearch env (executeSearch env db now1 p).2.1 now2 p).1.searchResponseId ∧
      (executeSearch env db now1 p).2.2 +
        (executeSearch env (executeSearch env db now1 p).2.1 now2 p).2.2 ≤ 1) := by
  constructor
  · intro env db now p r h
    exact ⟨(executeSearch_cached h).1, (executeSearch_cached h).2.1,
      (executeSearch_cached h).2.2.1⟩
  · intro env db now1 now2 p
    cases h : findCachedSearch db.searches p.tuple with
    | some r =>
        obtain ⟨hid1, _, hcalls1, hsearches1⟩ := @executeSearch_cached env db now1 p r h
        have h2 : findCachedSearch (executeSearch env db now1 p).2.1.searches p.tuple = some r := by
          rw [hsearches1]; exact h
        obtain ⟨hid2, _, hcalls2, _⟩ :=
          @executeSearch_cached env (executeSearch env db now1 p).2.1 now2 p r h2
        constructor
        · rw [hid1, hid2]
        · omega
    | none =>
        obtain ⟨hid1, hcalls1, hsearches1, hmatch, hrowid⟩ :=
          @executeSearch_uncached env db now1 p h
        have h2 : findCachedSearch (executeSearch env db now1 p).2.1.searches p.tuple
            = some (newSearchRow env db now1 p) := by
          rw [hsearches1]
          exact findCachedSearch_none_append h hmatch
        obtain ⟨hid2, _, hcalls2, _⟩ :=
          @executeSearch_cached env (executeSearch env db now1 p).2.1 now2 p
            (newSearchRow env db now1 p) h2
        constructor
        · rw [hid1, hid2, hrowid]
        · omega

/-! ## Theorems about per-item detail failure isolation -/

theorem findCachedDetail_not_mem {details : List DetailRecord} {f v : String}
    (h : findCachedDetail details f v = none) :
    ∀ r ∈ details, ¬(r.foodId = f ∧ r.version = v) := by
  induction details with
  | nil => intro r hr; exact absurd hr (List.not_mem_nil r)
  | cons r rest ih =>
      intro r2 hr2
      unfold findCachedDetail at h
      by_cases hr : r.foodId = f ∧ r.version = v
      · rw [if_pos hr] at h
        cases hrest : findCachedDetail rest f v <;> rw [hrest] at h
        · exact Option.noConfusion h
        · dsimp only at h
          split at h <;> exact Option.noConfusion h
      · rw [if_neg hr] at h
        rcases List.mem_cons.1 hr2 with rfl | hmem
        · exact hr
        · exact ih h r2 hmem

theorem findCachedDetail_append_none {details : List DetailRecord} {f v : String}
    (h : findCachedDetail details f v = none) {rec : DetailRecord}
    (hrec : ¬(rec.foodId = f ∧ rec.version = v)) :
    findCachedDetail (details ++ [rec]) f v = none := by
  induction details with
  | nil =>
      unfold findCachedDetail
      simp only [List.nil_append]
      rw [if_neg hrec]
      rfl
  | cons r rest ih =>
      unfold findCachedDetail at h
      by_cases hr : r.foodId = f ∧ r.version = v
      · rw [if_pos hr] at h
        cases hrest : findCachedDetail rest f v <;> rw [hrest] at h
        · exact Option.noConfusion h
        · dsimp only at h
          split at h <;> exact Option.noConfusion h
      · rw [if_neg hr] at h
        show findCachedDetail (r :: (rest ++ [rec])) f v = none
        unfold findCachedDetail
        rw [if_neg hr]
        exact ih h

theorem findCachedDetail_no_conflict {db : Db} {sid : Nat} {f v : String}
    (h : findCachedDetail db.details f v = none) :
    db.details.any (fun r =>
      r.searchResponseId == sid && r.foodId == f && r.version == v) = false := by
  rw [List.any_eq_false]
  intro r hr
  have hnm := findCachedDetail_not_mem h r hr
  simp only [Bool.and_eq_true, beq_iff_eq]
  intro hall
  exact hnm ⟨hall.1.2, hall.2⟩

theorem saveDetailForSearch_preserves_none {db : Db} {now : Int}
    {p : DetailFields} {f v : String}
    (h : findCachedDetail db.details f v = none)
    (hne : ¬(p.foodId = f ∧ p.version = v)) :
    findCachedDetail (saveDetailForSearch db now p).details f v = none := by
  unfold saveDetailForSearch
  split
  · exact h
  · exact findCachedDetail_append_none h hne

theorem detailTask_preserves_none {env : SearchEnv} {sid : Nat} {key : DetailKey}
    {db : Db} {now : Int} {f v : String}
    (h : findCachedDetail db.details f v = none)
    (hne : ¬(key.foodId = f ∧ key.version = v)) :
    findCachedDetail (detailTask env sid key db now).2.1.details f v = none := by
  unfold detailTask
  split
  · exact saveDetailForSearch_preserves_none h hne
  · split
    · exact saveDetailForSearch_preserves_none h hne
    · exact saveDetailForSearch_preserves_none h hne

theorem runDetailPhase_preserves_none {env : SearchEnv} {sid : Nat} {f v : String}
    (keys : List DetailKey) : ∀ (db : Db) (now : Int),
    findCachedDetail db.details f v = none →
    (∀ k ∈ keys, ¬(k.foodId = f ∧ k.version = v)) →
    findCachedDetail (runDetailPhase env sid keys db now).2.1.details f v = none := by
  induction keys with
  | nil => intro db now h _; exact h
  | cons key rest ih =>
      intro db now h hall
      unfold runDetailPhase
      exact ih _ _
        (detailTask_preserves_none h (hall key (List.mem_cons_self _ _)))
        (fun k hk => hall k (List.mem_cons_of_mem _ hk))

/-- The synthetic failure row persisted when a detail fetch throws. -/
def syntheticDetailRow (env : SearchEnv) (sid : Nat) (key : DetailKey)
    (db : Db) (now : Int) (m : String) : DetailRecord :=
  { id := db.nextDetailId
    searchResponseId := sid
    foodId := key.foodId
    version := key.version
    mfpUrl := env.mfpBaseUrl ++ "/api/services/foods/" ++ key.foodId ++
      "?version=" ++ key.version
    mfpStatus := 0
    responseJson := none
    responseText := some m
    createdAt := now }

theorem detailTask_error {env : SearchEnv} {sid : Nat} {key : DetailKey}
    {db : Db} {now : Int} {m : String}
    (hc : findCachedDetail db.details key.foodId key.version = none)
    (hf : env.fetchFoodDetail key.foodId key.version = Except.error m) :
    detailTask env sid key db now =
      (toDetailPayload key 0 none (some m),
       { db with
         details := db.details ++ [syntheticDetailRow env sid key db now m]
         nextDetailId := db.nextDetailId + 1 },
       true) := by
  unfold detailTask
  rw [hc]
  dsimp only
  rw [hf]
  dsimp only
  unfold saveDetailForSearch
  dsimp only
  rw [if_neg (by simp [findCachedDetail_no_conflict hc])]
  rfl

theorem runDetailPhase_length (env : SearchEnv) (sid : Nat)
    (keys : List DetailKey) : ∀ (db : Db) (now : Int),
    (runDetailPhase env sid keys db now).1.length = keys.length := by
  induction keys with
  | nil => intro db now; rfl
  | cons key rest ih =>
      intro db now
      unfold runDetailPhase
      simp only [List.length_cons, ih]

theorem runDetailPhase_cons (env : SearchEnv) (sid : Nat) (key : DetailKey)
    (rest : List DetailKey) (db : Db) (now : Int) :
    runDetailPhase env sid (key :: rest) db now =
      ((detailTask env sid key db now).1 ::
        (runDetailPhase env sid rest (detailTask env sid key db now).2.1 now).1,
       (runDetailPhase env sid rest (detailTask env sid key db now).2.1 now).2.1,
       (if (detailTask env sid key db now).2.2 then 1 else 0) +
        (runDetailPhase env sid rest (detailTask env sid key db now).2.1 now).2.2) :=
  rfl

theorem runDetailPhase_append (env : SearchEnv) (sid : Nat)
    (ks1 ks2 : List DetailKey) : ∀ (db : Db) (now : Int),
    (runDetailPhase env sid (ks1 ++ ks2) db now).1 =
      (runDetailPhase env sid ks1 db now).1 ++
        (runDetailPhase env sid ks2 (runDetailPhase env sid ks1 db now).2.1 now).1 ∧
    (runDetailPhase env sid (ks1 ++ ks2) db now).2.1 =
      (runDetailPhase env sid ks2 (runDetailPhase env sid ks1 db now).2.1 now).2.1 := by
  induction ks1 with
  | nil => intro db now; exact ⟨rfl, rfl⟩
  | cons key rest ih =>
      intro db now
      simp only [List.cons_append, runDetailPhase_cons]
      refine ⟨?_, (ih _ _).2⟩
      rw [(ih _ _).1]

/-- C6: per-item detail failures are isolated.  A detail task whose pair is
uncached and whose upstream fetch throws persists a synthetic failure row
(status 0, null JSON, the error message as text) and returns the matching
synthetic payload instead of propagating the exception; the batch output
always has one entry per key; and in a batch, the tasks before and after the
failing key still resolve to their own normal task results. -/
theorem detail_failure_isolated :
    (∀ (env : SearchEnv) (sid : Nat) (key : DetailKey) (db : Db) (now : Int)
        (m : String),
      findCachedDetail db.details key.foodId key.version = none →
      env.fetchFoodDetail key.foodId key.version = Except.error m →
      (detailTask env sid key db now).1 = toDetailPayload key 0 none (some m) ∧
      (detailTask env sid key db now).2.1.details =
        db.details ++ [syntheticDetailRow env sid key db now m]) ∧
    (∀ (env : SearchEnv) (sid : Nat) (keys : List DetailKey) (db : Db) (now : Int),
      (runDetailPhase env sid keys db now).1.length = keys.length) ∧
    (∀ (env : SearchEnv) (sid : Nat) (pre : List DetailKey) (key : DetailKey)
        (post : List DetailKey) (db : Db) (now : Int) (m : String),
      (∀ j ∈ pre, ¬(j.foodId = key.foodId ∧ j.version = key.version)) →
      findCachedDetail db.details key.foodId key.version = none →
      env.fetchFoodDetail key.foodId key.version = Except.error m →
      (runDetailPhase env sid (pre ++ key :: post) db now).1 =
        (runDetailPhase env sid pre db now).1 ++
          toDetailPayload key 0 none (some m) ::
            (runDetailPhase env sid post
              (detailTask env sid key (runDetailPhase env sid pre db now).2.1 now).2.1
              now).1) := by
  refine ⟨?_, runDetailPhase_length, ?_⟩
  · intro env sid key db now m hc hf
    rw [detailTask_error hc hf]
    exact ⟨rfl, rfl⟩
  · intro env sid pre key post db now m hpre hc hf
    have hcpre : findCachedDetail
        (runDetailPhase env sid pre db now).2.1.details key.foodId key.version = none :=
      runDetailPhase_preserves_none pre db now hc hpre
    rw [(runDetailPhase_append env sid pre (key :: post) db now).1]
    rw [runDetailPhase_cons, detailTask_error hcpre hf]

/-! ## Concrete fixtures for the search-cache and detail-failure witnesses -/

/-- A fixed upstream environment for witnesses: searches succeed with an
empty body, detail fetches throw for item id "2" and succeed otherwise. -/
def sampleSearchEnv : SearchEnv :=
  { searchNutrition := fun _ => { status := 200, url := "u", json := none, text := none }
    fetchFoodDetail := fun foodId _ =>
      if foodId = "2" then Except.error "boom"
      else Except.ok { status := 200, url := "u", json := none, text := none }
    mfpBaseUrl := "https://www.myfitnesspal.com"
    detailConcurrency := 10 }

/-- A cached search row matching the sample request tuple. -/
def sampleSearchRecord : SearchRecord :=
  { id := 7, query := "oats", offset := 0, maxItems := 8
    countryCode := "US", resourceType := "foods"
    mfpUrl := "u", mfpStatus := 200, responseJson := none, responseText := none
    createdAt := 5 }

/-- A store already holding the sample cached search. -/
def sampleDb : Db :=
  { searches := [sampleSearchRecord], details := [], nextSearchId := 8, nextDetailId := 1 }

/-- The sample request parameters, matching `sampleSearchRecord` exactly. -/
def sampleSearchParams : SearchParams :=
  { query := "oats", offset := 0, maxItems := 8
    countryCode := "US", resourceType := "foods", includeDetails := true }

/-- Witness for `executeSearch_cache_idempotent`: on the concrete store whose
cache holds the sample row, the call returns the cached id 7 and makes no
upstream search call, and a repeated call agrees with at most one upstream
call in total. -/
theorem executeSearch_cache_idempotent_witness :
    (executeSearch sampleSearchEnv sampleDb 6 sampleSearchParams).1.searchResponseId
      = sampleSearchRecord.id ∧
    (executeSearch sampleSearchEnv sampleDb 6 sampleSearchParams).2.2 = 0 ∧
    (executeSearch sampleSearchEnv sampleDb 6 sampleSearchParams).1.searchResponseId =
      (executeSearch sampleSearchEnv
        (executeSearch sampleSearchEnv sampleDb 6 sampleSearchParams).2.1
        9 sampleSearchParams).1.searchResponseId :=
  ⟨(executeSearch_cache_idempotent.1 sampleSearchEnv sampleDb 6 sampleSearchParams
      sampleSearchRecord rfl).1,
   (executeSearch_cache_idempotent.1 sampleSearchEnv sampleDb 6 sampleSearchParams
      sampleSearchRecord rfl).2.2,
   (executeSearch_cache_idempotent.2 sampleSearchEnv sampleDb 6 9 sampleSearchParams).1⟩

/-- Witness for `detail_failure_isolated`: in a three-key batch over an empty
detail cache where the fetch for item "2" throws, the middle output is the
synthetic status-0 payload and the neighbours resolve normally. -/
theorem detail_failure_isolated_witness :
    (runDetailPhase sampleSearchEnv 7
        [⟨"1", "1"⟩, ⟨"2", "1"⟩, ⟨"3", "1"⟩] sampleDb 6).1 =
      (runDetailPhase sampleSearchEnv 7 [⟨"1", "1"⟩] sampleDb 6).1 ++
        toDetailPayload ⟨"2", "1"⟩ 0 none (some "boom") ::
          (runDetailPhase sampleSearchEnv 7 [⟨"3", "1"⟩]
            (detailTask sampleSearchEnv 7 ⟨"2", "1"⟩
              (runDetailPhase sampleSearchEnv 7 [⟨"1", "1"⟩] sampleDb 6).2.1 6).2.1
            6).1 ∧
    (runDetailPhase sampleSearchEnv 7
        [⟨"1", "1"⟩, ⟨"2", "1"⟩, ⟨"3", "1"⟩] sampleDb 6).1.length = 3 :=
  ⟨detail_failure_isolated.2.2 sampleSearchEnv 7 [⟨"1", "1"⟩] ⟨"2", "1"⟩
      [⟨"3", "1"⟩] sampleDb 6 "boom"
      (by intro j hj; simp at hj; subst hj; simp)
      rfl rfl,
   detail_failure_isolated.2.1 sampleSearchEnv 7
      [⟨"1", "1"⟩, ⟨"2", "1"⟩, ⟨"3", "1"⟩] sampleDb 6⟩

/-! ## Agent data model (server.ts)

The AI tool-calling agent: sessions, tool calls, the tool executor, the
assistant loop, and the `/ai/turn` request handler.  `JSON.stringify` of
tool outputs and decision summaries is modelled by injecting the structured
value into `MsgContent`; `createMessageId` (timestamp + randomness) is
modelled by an injective-by-convention oracle `genId` applied to a counter
threaded through the run. -/

/-- Normalized nutrition subset of a food record. -/
structure Nutrition where
  calories : Option Rat := none
  protein : Option Rat := none
  carbs : Option Rat := none
  fat : Option Rat := none
  fiber : Option Rat := none
  sugars : Option Rat := none
  sodiumMg : Option Rat := none
  potassiumMg : Option Rat := none
deriving DecidableEq, Repr

/-- A normalized search-result food snapshot (`SearchResultFood`). -/
structure SearchResultFood where
  resultId : String
  name : String
  brand : Option String := none
  serving : Option String := none
  nutrition : Option Nutrition := none
deriving DecidableEq, Repr

/-- Resolution of one approval suggestion (`ApprovalOutput`). -/
structure ApprovalOutput where
  approved : Bool
  reason : Option String := none
deriving DecidableEq, Repr

/-- One approval suggestion with its snapshot and optional resolution. -/
structure ResolvedApprovalSuggestion where
  suggestionId : String
  resultId : String
  meal : Meal
  portion : Rat
  reason : String
  food : SearchResultFood
  output : Option ApprovalOutput := none
deriving DecidableEq, Repr

/-- Events surfaced to the `/ai/turn` caller (`AgentEvent`). -/
inductive AgentEvent where
  | assistant (text : String)
  | search (foods : List SearchResultFood)
  | approval (toolCallId : String) (suggestions : List ResolvedApprovalSuggestion)
deriving DecidableEq, Repr

/-- The raw `arguments` string of a tool call, observed through
`JSON.parse`: empty/whitespace, unparsable, or a parsed value. -/
inductive ArgsSpec where
  | emptyRaw
  | malformed
  | value (v : JsVal)

/-- A model-issued tool call (`OpenRouterToolCall`). -/
structure ToolCallRec where
  id : String
  name : String
  args : ArgsSpec

/-- Conversation roles. -/
inductive Role where
  | system
  | user
  | assistant
  | tool
deriving DecidableEq, Repr

/-- Structured tool output (serialized with `JSON.stringify` at the
boundary): an `{error}` object, a `{foods}` object, `null`, or `{}`. -/
inductive ToolOutput where
  | errorMsg (error : String)
  | foods (fs : List SearchResultFood)
  | nullOutput
  | emptyObj
deriving DecidableEq, Repr

/-- One entry of the decisions summary appended when an approval batch is
fully resolved. -/
structure DecisionRec where
  suggestionId : String
  resultId : String
  meal : Meal
  portion : Rat
  approved : Bool
  reason : Option String
deriving DecidableEq, Repr

/-- Message content: plain text, or a JSON-serialized structured value. -/
inductive MsgContent where
  | text (s : String)
  | toolJson (o : ToolOutput)
  | decisionsJson (ds : List DecisionRec)
deriving DecidableEq, Repr

/-- A conversation turn (`OpenRouterMessage`). -/
structure ChatMsg where
  role : Role
  content : Option MsgContent := none
  toolCalls : List ToolCallRec := []
  toolCallId : Option String := none

/-- The `{assistantText, toolCalls}` shape of one chat-completion turn. -/
structure ModelTurn where
  assistantText : String
  toolCalls : List ToolCallRec

/-- An agent session (`AgentSession`).  The JavaScript `Map`s become
association lists with unique keys. -/
structure AgentSession where
  id : String
  userId : String
  conversation : List ChatMsg
  searchResultCounter : Nat
  searchResultsByLocalId : List (String × SearchResultFood)
  pendingApprovals : List (String × List ResolvedApprovalSuggestion)
  updatedAt : Int

/-- Observable loop states. -/
inductive AgentStatus where
  | ready
  | awaitingApproval
deriving DecidableEq, Repr

/-- `Map.get`. -/
def mapGet {β : Type} (m : List (String × β)) (k : String) : Option β :=
  (m.find? (fun p => p.1 = k)).map (fun p => p.2)

/-- `Map.set`: replace in place when present, else append. -/
def mapSet {β : Type} (m : List (String × β)) (k : String) (v : β) :
    List (String × β) :=
  if m.any (fun p => p.1 = k) then
    m.map (fun p => if p.1 = k then (k, v) else p)
  else m ++ [(k, v)]

/-- `Map.delete`. -/
def mapDelete {β : Type} (m : List (String × β)) (k : String) :
    List (String × β) :=
  m.filter (fun p => !(p.1 = k : Bool))

/-- Field access `args?.key` on the result of `asRecord`. -/
def recGet (args : Option (List (String × JsVal))) (key : String) : Option JsVal :=
  args.bind (fun fields => (fields.find? (fun p => p.1 = key)).map (fun p => p.2))

/-- `a ?? b` on optional results (`undefined` falls through). -/
def optOr {α : Type} (a b : Option α) : Option α :=
  match a with
  | some x => some x
  | none => b

/-- `a ?? b` on JavaScript values: `null` and `undefined` fall through. -/
def jsCoalesce (a b : Option JsVal) : Option JsVal :=
  match a with
  | some .vNull => b
  | none => b
  | some v => some v

/-! ## Normalization of upstream food records (server.ts) -/

/-- Loop of `formatServing`: the first array element exposing a usable
value and/or unit, preferring `"value unit"`, then value, then unit. -/
def formatServingLoop : List JsVal → Option String
  | [] => none
  | candidate :: rest =>
      if jsFalsy candidate || !jsIsObjectType candidate then
        formatServingLoop rest
      else
        match (jsGet candidate "value").bind asNumber,
              (jsGet candidate "unit").bind asString with
        | some q, some u => some (jsNumToString q ++ " " ++ u)
        | some q, none => some (jsNumToString q)
        | none, some u => some u
        | none, none => formatServingLoop rest

/-- `formatServing` from `server.ts`. -/
def formatServing (servingSizes : Option JsVal) : Option String :=
  match servingSizes with
  | some (.vArr candidates) => formatServingLoop candidates
  | _ => none

/-- `mapNutrition` from `server.ts`: the whole object is omitted when every
field is absent. -/
def mapNutrition (contents : Option JsVal) : Option Nutrition :=
  match contents with
  | none => none
  | some c =>
      if jsFalsy c then none
      else
        let n : Nutrition :=
          { calories := ((jsGet c "energy").bind (fun e => jsGet e "value")).bind asNumber
            protein := (jsGet c "protein").bind asNumber
            carbs := (jsGet c "carbohydrates").bind asNumber
            fat := (jsGet c "fat").bind asNumber
            fiber := (jsGet c "fiber").bind asNumber
            sugars := (jsGet c "sugar").bind asNumber
            sodiumMg := (jsGet c "sodium").bind asNumber
            potassiumMg := (jsGet c "potassium").bind asNumber }
        if n.calories = none ∧ n.protein = none ∧ n.carbs = none ∧ n.fat = none ∧
            n.fiber = none ∧ n.sugars = none ∧ n.sodiumMg = none ∧
            n.potassiumMg = none then
          none
        else some n

/-- Loop of `mapSearchResults` over `items[]`, de-duplicating by the
composite `id:version` string and preferring detail-record fields. -/
def mapSearchResultsLoop (detailById : List (String × JsVal)) :
    List JsVal → List String → List SearchResultFood
  | [], _ => []
  | row :: rest, seen =>
      match jsGet row "item" with
      | none => mapSearchResultsLoop detailById rest seen
      | some item =>
          if jsFalsy item || !jsIsObjectType item then
            mapSearchResultsLoop detailById rest seen
          else
            match (jsGet item "id").bind asString,
                  (jsGet item "version").bind asString with
            | some foodId, some version =>
                let compositeId := foodId ++ ":" ++ version
                if compositeId ∈ seen then
                  mapSearchResultsLoop detailById rest seen
                else
                  let source := (mapGet detailById compositeId).getD item
                  match optOr ((jsGet source "description").bind asString)
                        ((jsGet item "description").bind asString) with
                  | none => mapSearchResultsLoop detailById rest (compositeId :: seen)
                  | some name =>
                      { resultId := compositeId
                        name := name
                        brand := optOr ((jsGet source "brand_name").bind asString)
                          ((jsGet item "brand_name").bind asString)
                        serving := optOr (formatServing (jsGet source "serving_sizes"))
                          (formatServing (jsGet item "serving_sizes"))
                        nutrition := mapNutrition
                          (jsCoalesce (jsGet source "nutritional_contents")
                            (jsGet item "nutritional_contents")) } ::
                        mapSearchResultsLoop detailById rest (compositeId :: seen)
            | _, _ => mapSearchResultsLoop detailById rest seen

/-- `mapSearchResults` from `server.ts`: index usable detail payloads by
`id:version`, then map the raw search items to normalized foods. -/
def mapSearchResults (payload : SearchResponsePayload) : List SearchResultFood :=
  let detailById := payload.details.foldl
    (fun acc detail =>
      if detail.status ≠ 200 then acc
      else
        match detail.data with
        | none => acc
        | some d =>
            if jsFalsy d || !jsIsObjectType d then acc
            else
              match asString (.vStr detail.foodId), asString (.vStr detail.version) with
              | some foodId, some version => mapSet acc (foodId ++ ":" ++ version) d
              | _, _ => acc)
    []
  let items : Option JsVal :=
    match payload.search.data with
    | some d => if !jsFalsy d && jsIsObjectType d then jsGet d "items" else none
    | none => none
  match items with
  | some (.vArr rows) => mapSearchResultsLoop detailById rows []
  | _ => []

/-! ## Tool executor and assistant loop (server.ts) -/

/-- `parseToolArguments`: empty raw arguments parse to `{}`; malformed
arguments throw. -/
def parseToolArguments : ArgsSpec → Except Unit JsVal
  | .emptyRaw => .ok (.vObj [])
  | .malformed => .error ()
  | .value v => .ok v

/-- Environment of the agent: the search environment, the chat-completion
oracle (indexed by the number of model calls made so far in the request),
the message-id generator oracle, and the request clock. -/
structure AgentEnv where
  search : SearchEnv
  chat : Nat → ModelTurn
  genId : Nat → String
  now : Int

/-- Mutable state threaded through one `/ai/turn` request: the store, the
session being served, the id-generator counter, plus instrumentation
(number of chat-completion calls, executed tool-call ids, upstream search
calls) that records observable effects. -/
structure AState where
  db : Db
  session : AgentSession
  msgCounter : Nat
  modelCalls : Nat
  executedToolCalls : List String
  searchCalls : Nat

/-- Result triple of `runToolCall`. -/
structure ToolCallOutcome where
  pauseForApproval : Bool
  output : ToolOutput
  events : List AgentEvent

/-- Assign fresh session-scoped local result ids (`r<counter>`) to the top
foods and store them in the session's result mapping. -/
def assignResultIds (session : AgentSession) :
    List SearchResultFood → List SearchResultFood × AgentSession
  | [] => ([], session)
  | food :: rest =>
      let resultId := "r" ++ toString session.searchResultCounter
      let mapped : SearchResultFood :=
        { resultId := resultId, name := food.name, brand := food.brand
          serving := food.serving, nutrition := food.nutrition }
      let session2 :=
        { session with
          searchResultCounter := session.searchResultCounter + 1
          searchResultsByLocalId :=
            mapSet session.searchResultsByLocalId resultId mapped }
      let tail := assignResultIds session2 rest
      (mapped :: tail.1, tail.2)

/-- The suggestion-validation loop of the `requestFoodApprovals` branch:
resolve each candidate's resultId against the session mapping, collect
unknown ids, drop reason-less entries, and de-duplicate by the
`resultId|meal|portion` string.  Returns (resolved, unknown ids, next
id-generator counter). -/
def processApprovalSuggestions (session : AgentSession) (genId : Nat → String) :
    List JsVal → Nat → List String →
    List ResolvedApprovalSuggestion × List String × Nat
  | [], counter, _ => ([], [], counter)
  | candidate :: rest, counter, seen =>
      let suggestion := asRecord candidate
      let resultId := (((recGet suggestion "resultId").bind asString).map
        (fun s => jsTrim s)).getD ""
      match mapGet session.searchResultsByLocalId resultId with
      | none =>
          let tail := processApprovalSuggestions session genId rest counter seen
          (tail.1, (if resultId = "" then "(empty)" else resultId) :: tail.2.1,
           tail.2.2)
      | some food =>
          let meal := normalizeMeal (recGet suggestion "meal")
          let portion := sanitizePortion (recGet suggestion "portion")
          let reason := (((recGet suggestion "reason").bind asString).map
            (fun s => jsTrim s)).getD ""
          if reason = "" then
            processApprovalSuggestions session genId rest counter seen
          else
            let duplicateKey := resultId ++ "|" ++ mealToString meal ++ "|" ++
              jsNumToString portion
            if duplicateKey ∈ seen then
              processApprovalSuggestions session genId rest counter seen
            else
              let tail := processApprovalSuggestions session genId rest
                (counter + 1) (duplicateKey :: seen)
              ({ suggestionId := genId counter, resultId := resultId, meal := meal
                 portion := portion, reason := reason, food := food,
                 output := none } :: tail.1,
               tail.2.1, tail.2.2)

/-- `runToolCall` from `server.ts`: dispatch on the tool name, validate
arguments, and either produce a model-visible output or register a pending
approval batch and signal pause-for-approval. -/
def runToolCall (env : AgentEnv) (st0 : AState) (toolCall : ToolCallRec) :
    ToolCallOutcome × AState :=
  let st := { st0 with executedToolCalls := st0.executedToolCalls ++ [toolCall.id] }
  match parseToolArguments toolCall.args with
  | .error _ =>
      ({ pauseForApproval := false
         output := .errorMsg "Tool arguments were invalid JSON.", events := [] }, st)
  | .ok rawArguments =>
      if toolCall.name = "searchFoods" then
        let args := asRecord rawArguments
        let query := ((recGet args "query").bind asString).getD ""
        let parsedLimit := (recGet args "limit").bind asNumber
        let limit : Int := max 1 (min 10
          (match parsedLimit with
           | some q => jsMathRound q
           | none => 6))
        if (jsTrim query).length < 2 then
          ({ pauseForApproval := false
             output := .errorMsg "Invalid searchFoods input.", events := [] }, st)
        else
          let res := executeSearch env.search st.db env.now
            { query := jsTrim query, offset := 0
              maxItems := min 20 (max (limit * 2) 8)
              countryCode := "US", resourceType := "foods", includeDetails := true }
          let st2 := { st with db := res.2.1, searchCalls := st.searchCalls + res.2.2 }
          let topFoods := (mapSearchResults res.1).take limit.toNat
          let assigned := assignResultIds st2.session topFoods
          ({ pauseForApproval := false, output := .foods assigned.1
             events := [.search assigned.1] },
           { st2 with session := assigned.2 })
      else if toolCall.name = "requestFoodApprovals" then
        let args := asRecord rawArguments
        match recGet args "suggestions" with
        | some (.vArr suggestionsRaw) =>
            if suggestionsRaw.length = 0 ∨ suggestionsRaw.length > 8 then
              ({ pauseForApproval := false
                 output := .errorMsg "Invalid requestFoodApprovals input."
                 events := [] }, st)
            else
              let proc := processApprovalSuggestions st.session env.genId
                suggestionsRaw st.msgCounter []
              let st2 := { st with msgCounter := proc.2.2 }
              if proc.2.1.length > 0 then
                ({ pauseForApproval := false
                   output := .errorMsg ("Unknown result IDs: " ++
                     String.intercalate ", " (proc.2.1.take 5))
                   events := [] }, st2)
              else if proc.1.length = 0 then
                ({ pauseForApproval := false
                   output := .errorMsg "No valid suggestions to approve."
                   events := [] }, st2)
              else
                ({ pauseForApproval := true, output := .nullOutput
                   events := [.approval toolCall.id proc.1] },
                 { st2 with session :=
                    { st2.session with
                      pendingApprovals :=
                        mapSet st2.session.pendingApprovals toolCall.id proc.1 } })
        | _ =>
            ({ pauseForApproval := false
               output := .errorMsg "Invalid requestFoodApprovals input."
               events := [] }, st)
      else
        ({ pauseForApproval := false
           output := .errorMsg ("Unknown tool: " ++ toolCall.name), events := [] }, st)

/-- `toolResult.output ?? {}` before serialization. -/
def coalesceOutput : ToolOutput → ToolOutput
  | .nullOutput => .emptyObj
  | o => o

/-- Append the synthetic `tool` turn carrying a tool call's serialized
output, keyed by the tool-call identity. -/
def pushToolMsg (st : AState) (toolCallId : String) (output : ToolOutput) : AState :=
  { st with session :=
      { st.session with conversation := st.session.conversation ++
          [{ role := .tool, content := some (.toolJson (coalesceOutput output))
             toolCalls := [], toolCallId := some toolCallId }] } }

/-- Process one model turn's tool calls in order; stop at the first call
signalling pause-for-approval, without executing the rest and without
appending its tool-result turn.  Returns (paused, events, state). -/
def runToolBatch (env : AgentEnv) :
    List ToolCallRec → AState → List AgentEvent →
    Bool × List AgentEvent × AState
  | [], st, events => (false, events, st)
  | toolCall :: rest, st, events =>
      let r := runToolCall env st toolCall
      let events2 := events ++ r.1.events
      if r.1.pauseForApproval then (true, events2, r.2)
      else runToolBatch env rest (pushToolMsg r.2 toolCall.id r.1.output) events2

/-- One model call plus the append of the assistant turn to history. -/
def beginTurn (env : AgentEnv) (st : AState) : ModelTurn × AState :=
  let turn := env.chat st.modelCalls
  (turn,
   { st with
     modelCalls := st.modelCalls + 1
     session := { st.session with conversation := st.session.conversation ++
        [{ role := .assistant
           content := if jsTrim turn.assistantText ≠ "" then
             some (.text turn.assistantText) else none
           toolCalls := turn.toolCalls, toolCallId := none }] } })

/-- The `assistant` event surfaced for visible text. -/
def assistantEvents (turn : ModelTurn) : List AgentEvent :=
  if jsTrim turn.assistantText ≠ "" then [.assistant turn.assistantText] else []

/-- `runAssistantLoop` from `server.ts`: up to `fuel` model turns; terminate
`ready` when the model stops calling tools, terminate `awaiting-approval`
as soon as a tool call pauses. -/
def runAssistantLoop (env : AgentEnv) :
    Nat → AState → List AgentEvent →
    AgentStatus × List AgentEvent × AState
  | 0, st, events => (.ready, events, st)
  | fuel + 1, st, events =>
      let bt := beginTurn env st
      let events2 := events ++ assistantEvents bt.1
      if bt.1.toolCalls.isEmpty then (.ready, events2, bt.2)
      else
        let batch := runToolBatch env bt.1.toolCalls bt.2 events2
        if batch.1 then (.awaitingApproval, batch.2.1, batch.2.2)
        else runAssistantLoop env fuel batch.2.2 batch.2.1

/-- A loop run starts with the 8-turn cap and no accumulated events. -/
def runAssistantLoopTop (env : AgentEnv) (st : AState) :
    AgentStatus × List AgentEvent × AState :=
  runAssistantLoop env 8 st []

/-! ## Session store and the `/ai/turn` handler (server.ts) -/

/-- The idle-eviction threshold: 8 hours in milliseconds. -/
def maxAiSessionIdleMs : Int := 1000 * 60 * 60 * 8

/-- `pruneOldAiSessions`: drop every session whose idle time strictly
exceeds the threshold. -/
def pruneOldAiSessions (now : Int) (store : List (String × AgentSession)) :
    List (String × AgentSession) :=
  store.filter (fun p => !(decide (maxAiSessionIdleMs < now - p.2.updatedAt)))

/-- `requireSessionOwner`: a session is addressable only with its owning
user id. -/
def requireSessionOwner (store : List (String × AgentSession))
    (sessionId userId : String) : Option AgentSession :=
  match mapGet store sessionId with
  | none => none
  | some session => if session.userId = userId then some session else none

/-- A parsed `/ai/turn` action (body and multipart extraction, and audio
transcription, are transport-level: `message` holds the resolved text). -/
inductive TurnAction where
  | userMessage (message : Option String)
  | approval (toolCallId suggestionId : String) (approved : Bool)
  | other (actionType : String)

def TurnAction.actionType : TurnAction → String
  | .userMessage _ => "user-message"
  | .approval _ _ _ => "approval"
  | .other t => t

/-- Response body of the modelled `/ai/turn` handler. -/
inductive ApiBody where
  | errorMsg (error : String)
  | turnOk (status : AgentStatus) (events : List AgentEvent)
      (resolvedUserMessage : Option String)
deriving DecidableEq, Repr

/-- An HTTP response of the handler. -/
structure ApiResponse where
  status : Nat
  body : ApiBody
deriving DecidableEq, Repr

/-- Everything observable about one `/ai/turn` request: the response, the
updated store and database, and the number of chat-completion calls made. -/
structure TurnResult where
  response : ApiResponse
  store : List (String × AgentSession)
  db : Db
  modelCalls : Nat

/-- The resolution recorded for one client decision. -/
def approvalItemOutput (approved : Bool) : ApprovalOutput :=
  { approved := approved
    reason := if approved then none else some "User rejected this suggestion." }

/-- Mark the target suggestion resolved, leaving the others untouched. -/
def resolveSuggestionAt (pendingSuggestions : List ResolvedApprovalSuggestion)
    (targetIndex : Nat) (approved : Bool) : List ResolvedApprovalSuggestion :=
  pendingSuggestions.mapIdx (fun i x =>
    if i = targetIndex then { x with output := some (approvalItemOutput approved) }
    else x)

/-- The decisions summary serialized into the final `tool` turn. -/
def decisionsOf (next : List ResolvedApprovalSuggestion) : List DecisionRec :=
  next.map (fun x =>
    { suggestionId := x.suggestionId
      resultId := x.resultId
      meal := x.meal, portion := x.portion
      approved := (x.output.map (fun o => o.approved)).getD false
      reason := x.output.bind (fun o => o.reason) })

/-- The `tool` turn summarizing all decisions of a fully resolved batch. -/
def toolDecisionsMsg (toolCallId : String) (ds : List DecisionRec) : ChatMsg :=
  { role := .tool, content := some (.decisionsJson ds)
    toolCalls := [], toolCallId := some toolCallId }

/-- The `/ai/turn` request handler from `server.ts` (post-parse): validate,
prune idle sessions, check ownership, then dispatch the action. -/
def handleAiTurn (env : AgentEnv) (db : Db)
    (store : List (String × AgentSession)) (sessionId userId : String)
    (action : TurnAction) : TurnResult :=
  if sessionId = "" ∨ userId = "" then
    { response := ⟨400, .errorMsg "sessionId and userId are required"⟩
      store := store, db := db, modelCalls := 0 }
  else if action.actionType = "" then
    { response := ⟨400, .errorMsg "action.type is required"⟩
      store := store, db := db, modelCalls := 0 }
  else
    let store1 := pruneOldAiSessions env.now store
    match requireSessionOwner store1 sessionId userId with
    | none =>
        { response := ⟨403, .errorMsg "Session not found for this user"⟩
          store := store1, db := db, modelCalls := 0 }
    | some session =>
        let session1 := { session with updatedAt := env.now }
        match action with
        | .userMessage message =>
            let msg := ((message.map (fun s => jsTrim s)).getD "")
            if msg = "" then
              { response := ⟨400, .errorMsg "action.message or audio is required"⟩
                store := mapSet store1 sessionId session1, db := db, modelCalls := 0 }
            else if session1.pendingApprovals.length > 0 then
              { response :=
                  ⟨409, .errorMsg "Resolve pending approvals before sending a new message."⟩
                store := mapSet store1 sessionId session1, db := db, modelCalls := 0 }
            else
              let session2 :=
                { session1 with conversation := session1.conversation ++
                    [{ role := .user, content := some (.text msg)
                       toolCalls := [], toolCallId := none }] }
              let st0 : AState :=
                { db := db, session := session2, msgCounter := 0, modelCalls := 0
                  executedToolCalls := [], searchCalls := 0 }
              let lr := runAssistantLoopTop env st0
              { response := ⟨200, .turnOk lr.1 lr.2.1 (some msg)⟩
                store := mapSet store1 sessionId
                  { lr.2.2.session with updatedAt := env.now }
                db := lr.2.2.db, modelCalls := lr.2.2.modelCalls }
        | .approval toolCallId suggestionId approved =>
            if toolCallId = "" ∨ suggestionId = "" then
              { response :=
                  ⟨400, .errorMsg "action.toolCallId and action.suggestionId are required"⟩
                store := mapSet store1 sessionId session1, db := db, modelCalls := 0 }
            else
              match mapGet session1.pendingApprovals toolCallId with
              | none =>
                  { response :=
                      ⟨409, .errorMsg "No pending approval request for tool call."⟩
                    store := mapSet store1 sessionId session1, db := db, modelCalls := 0 }
              | some pendingSuggestions =>
                  match pendingSuggestions.findIdx?
                      (fun s => s.suggestionId = suggestionId) with
                  | none =>
                      { response := ⟨404, .errorMsg "Suggestion not found."⟩
                        store := mapSet store1 sessionId session1, db := db
                        modelCalls := 0 }
                  | some targetIndex =>
                      let alreadyResolved :=
                        match pendingSuggestions[targetIndex]? with
                        | some target => target.output.isSome
                        | none => false
                      if alreadyResolved then
                        { response := ⟨200, .turnOk .awaitingApproval [] none⟩
                          store := mapSet store1 sessionId session1, db := db
                          modelCalls := 0 }
                      else
                        let nextSuggestions :=
                          resolveSuggestionAt pendingSuggestions targetIndex approved
                        let allResolved := nextSuggestions.all
                          (fun s => s.output.isSome)
                        if !allResolved then
                          { response := ⟨200, .turnOk .awaitingApproval [] none⟩
                            store := mapSet store1 sessionId
                              { session1 with
                                pendingApprovals :=
                                  mapSet session1.pendingApprovals toolCallId
                                    nextSuggestions }
                            db := db, modelCalls := 0 }
                        else
                          let decisions := decisionsOf nextSuggestions
                          let session2 :=
                            { session1 with
                              pendingApprovals :=
                                mapDelete session1.pendingApprovals toolCallId
                              conversation := session1.conversation ++
                                [toolDecisionsMsg toolCallId decisions] }
                          let st0 : AState :=
                            { db := db, session := session2, msgCounter := 0
                              modelCalls := 0, executedToolCalls := []
                              searchCalls := 0 }
                          let lr := runAssistantLoopTop env st0
                          { response := ⟨200, .turnOk lr.1 lr.2.1 none⟩
                            store := mapSet store1 sessionId
                              { lr.2.2.session with updatedAt := env.now }
                            db := lr.2.2.db, modelCalls := lr.2.2.modelCalls }
        | .other t =>
            { response := ⟨400, .errorMsg ("Unsupported action type: " ++ t)⟩
              store := mapSet store1 sessionId session1, db := db, modelCalls := 0 }

/-! ## Theorems about the agent loop pause semantics -/

theorem assignResultIds_conversation (foods : List SearchResultFood) :
    ∀ session : AgentSession,
    (assignResultIds session foods).2.conversation = session.conversation := by
  induction foods with
  | nil => intro session; rfl
  | cons food rest ih => intro session; exact ih _

theorem runToolCall_effects (env : AgentEnv) (st : AState) (tc : ToolCallRec) :
    (runToolCall env st tc).2.executedToolCalls = st.executedToolCalls ++ [tc.id] ∧
    (runToolCall env st tc).2.session.conversation = st.session.conversation ∧
    (runToolCall env st tc).2.modelCalls = st.modelCalls := by
  unfold runToolCall
  cases hp : parseToolArguments tc.args with
  | error e => exact ⟨rfl, rfl, rfl⟩
  | ok v =>
      dsimp only
      by_cases h1 : tc.name = "searchFoods"
      · rw [if_pos h1]
        split
        · exact ⟨rfl, rfl, rfl⟩
        · exact ⟨rfl, assignResultIds_conversation _ _, rfl⟩
      · rw [if_neg h1]
        by_cases h2 : tc.name = "requestFoodApprovals"
        · rw [if_pos h2]
          split
          · split
            · exact ⟨rfl, rfl, rfl⟩
            · split
              · exact ⟨rfl, rfl, rfl⟩
              · split
                · exact ⟨rfl, rfl, rfl⟩
                · exact ⟨rfl, rfl, rfl⟩
          · exact ⟨rfl, rfl, rfl⟩
        · rw [if_neg h2]
          exact ⟨rfl, rfl, rfl⟩

theorem pushToolMsg_effects (st : AState) (id : String) (o : ToolOutput) :
    (pushToolMsg st id o).executedToolCalls = st.executedToolCalls ∧
    (pushToolMsg st id o).modelCalls = st.modelCalls ∧
    (pushToolMsg st id o).session.conversation = st.session.conversation ++
      [{ role := .tool, content := some (.toolJson (coalesceOutput o))
         toolCalls := [], toolCallId := some id }] :=
  ⟨rfl, rfl, rfl⟩

theorem runToolBatch_cons_pause (env : AgentEnv) (tc : ToolCallRec)
    (rest : List ToolCallRec) (st : AState) (ev : List AgentEvent)
    (hp : (runToolCall env st tc).1.pauseForApproval = true) :
    runToolBatch env (tc :: rest) st ev =
      (true, ev ++ (runToolCall env st tc).1.events, (runToolCall env st tc).2) := by
  simp [runToolBatch, hp]

theorem runToolBatch_cons_no_pause (env : AgentEnv) (tc : ToolCallRec)
    (rest : List ToolCallRec) (st : AState) (ev : List AgentEvent)
    (hp : (runToolCall env st tc).1.pauseForApproval = false) :
    runToolBatch env (tc :: rest) st ev =
      runToolBatch env rest
        (pushToolMsg (runToolCall env st tc).2 tc.id (runToolCall env st tc).1.output)
        (ev ++ (runToolCall env st tc).1.events) := by
  simp [runToolBatch, hp]

theorem runToolBatch_no_pause_executed (env : AgentEnv) (calls : List ToolCallRec) :
    ∀ (st : AState) (ev : List AgentEvent),
    (runToolBatch env calls st ev).1 = false →
    (runToolBatch env calls st ev).2.2.executedToolCalls =
      st.executedToolCalls ++ calls.map (fun c => c.id) := by
  induction calls with
  | nil => intro st ev _; simp [runToolBatch]
  | cons tc rest ih =>
      intro st ev hfalse
      cases hp : (runToolCall env st tc).1.pauseForApproval with
      | true =>
          rw [runToolBatch_cons_pause env tc rest st ev hp] at hfalse
          exact Bool.noConfusion hfalse
      | false =>
          rw [runToolBatch_cons_no_pause env tc rest st ev hp] at hfalse ⊢
          rw [ih _ _ hfalse, (pushToolMsg_effects _ _ _).1,
            (runToolCall_effects env st tc).1]
          simp

theorem runToolBatch_modelCalls (env : AgentEnv) (calls : List ToolCallRec) :
    ∀ (st : AState) (ev : List AgentEvent),
    (runToolBatch env calls st ev).2.2.modelCalls = st.modelCalls := by
  induction calls with
  | nil => intro st ev; rfl
  | cons tc rest ih =>
      intro st ev
      cases hp : (runToolCall env st tc).1.pauseForApproval with
      | true =>
          rw [runToolBatch_cons_pause env tc rest st ev hp]
          exact (runToolCall_effects env st tc).2.2
      | false =>
          rw [runToolBatch_cons_no_pause env tc rest st ev hp]
          rw [ih _ _, (pushToolMsg_effects _ _ _).2.1,
            (runToolCall_effects env st tc).2.2]

theorem runToolBatch_pause_at (env : AgentEnv) (pre : List ToolCallRec) :
    ∀ (pc : ToolCallRec) (post : List ToolCallRec) (st : AState)
      (ev : List AgentEvent),
    (runToolBatch env pre st ev).1 = false →
    (runToolCall env (runToolBatch env pre st ev).2.2 pc).1.pauseForApproval = true →
    runToolBatch env (pre ++ pc :: post) st ev =
      (true,
       (runToolBatch env pre st ev).2.1 ++
         (runToolCall env (runToolBatch env pre st ev).2.2 pc).1.events,
       (runToolCall env (runToolBatch env pre st ev).2.2 pc).2) := by
  induction pre with
  | nil =>
      intro pc post st ev _ hpause
      simp only [runToolBatch] at hpause
      rw [List.nil_append, runToolBatch_cons_pause env pc post st ev hpause]
      simp [runToolBatch]
  | cons tc rest ih =>
      intro pc post st ev hfalse hpause
      cases hp : (runToolCall env st tc).1.pauseForApproval with
      | true =>
          rw [runToolBatch_cons_pause env tc rest st ev hp] at hfalse
          exact Bool.noConfusion hfalse
      | false =>
          rw [runToolBatch_cons_no_pause env tc rest st ev hp] at hfalse hpause
          rw [List.cons_append, runToolBatch_cons_no_pause env tc _ st ev hp,
            runToolBatch_cons_no_pause env tc rest st ev hp]
          exact ih pc post _ _ hfalse hpause

/-- C3: if a tool call in a model turn's batch signals pause-for-approval,
the loop run terminates immediately in state awaiting-approval.  The batch
stops at the pausing call (its final state is exactly the state right after
that call, so later calls are not executed and their ids are not recorded);
a tool call appends no conversation turn itself, so no synthetic
tool-result turn exists for the paused call; and the loop returns without
requesting any further model turn (exactly one model call, the pausing
turn's own, is made from the turn's start). -/
theorem agent_loop_pause_semantics :
    (∀ (env : AgentEnv) (st : AState) (tc : ToolCallRec),
      (runToolCall env st tc).2.executedToolCalls =
        st.executedToolCalls ++ [tc.id] ∧
      (runToolCall env st tc).2.session.conversation = st.session.conversation) ∧
    (∀ (env : AgentEnv) (calls : List ToolCallRec) (st : AState)
        (ev : List AgentEvent),
      (runToolBatch env calls st ev).1 = false →
      (runToolBatch env calls st ev).2.2.executedToolCalls =
        st.executedToolCalls ++ calls.map (fun c => c.id)) ∧
    (∀ (env : AgentEnv) (pre : List ToolCallRec) (pc : ToolCallRec)
        (post : List ToolCallRec) (st : AState) (ev : List AgentEvent),
      (runToolBatch env pre st ev).1 = false →
      (runToolCall env (runToolBatch env pre st ev).2.2 pc).1.pauseForApproval = true →
      runToolBatch env (pre ++ pc :: post) st ev =
        (true,
         (runToolBatch env pre st ev).2.1 ++
           (runToolCall env (runToolBatch env pre st ev).2.2 pc).1.events,
         (runToolCall env (runToolBatch env pre st ev).2.2 pc).2)) ∧
    (∀ (env : AgentEnv) (fuel : Nat) (st : AState) (ev : List AgentEvent),
      (beginTurn env st).1.toolCalls ≠ [] →
      (runToolBatch env (beginTurn env st).1.toolCalls (beginTurn env st).2
        (ev ++ assistantEvents (beginTurn env st).1)).1 = true →
      runAssistantLoop env (fuel + 1) st ev =
        (.awaitingApproval,
         (runToolBatch env (beginTurn env st).1.toolCalls (beginTurn env st).2
           (ev ++ assistantEvents (beginTurn env st).1)).2.1,
         (runToolBatch env (beginTurn env st).1.toolCalls (beginTurn env st).2
           (ev ++ assistantEvents (beginTurn env st).1)).2.2) ∧
      (runToolBatch env (beginTurn env st).1.toolCalls (beginTurn env st).2
        (ev ++ assistantEvents (beginTurn env st).1)).2.2.modelCalls =
        st.modelCalls + 1) := by
  refine ⟨?_, runToolBatch_no_pause_executed, runToolBatch_pause_at, ?_⟩
  · intro env st tc
    exact ⟨(runToolCall_effects env st tc).1, (runToolCall_effects env st tc).2.1⟩
  · intro env fuel st ev hne hpause
    constructor
    · simp only [runAssistantLoop]
      rw [if_neg (by simpa [List.isEmpty_iff] using hne)]
      simp only [hpause, if_true]
    · rw [runToolBatch_modelCalls]
      rfl

/-! ## Theorems about approval-batch atomicity (`requestFoodApprovals`) -/

/-- C5: `requestFoodApprovals` is atomic with respect to unknown result
ids.  When the validation loop collects at least one unknown resultId, the
whole call returns an error output listing at most 5 of the unknown ids,
the session (in particular its pending-approvals mapping) is unchanged,
and pause-for-approval is not signalled. -/
theorem requestFoodApprovals_atomic :
    ∀ (env : AgentEnv) (st : AState) (toolCall : ToolCallRec) (v : JsVal)
      (suggestionsRaw : List JsVal),
    toolCall.name = "requestFoodApprovals" →
    parseToolArguments toolCall.args = Except.ok v →
    recGet (asRecord v) "suggestions" = some (.vArr suggestionsRaw) →
    suggestionsRaw.length ≠ 0 →
    suggestionsRaw.length ≤ 8 →
    (processApprovalSuggestions st.session env.genId suggestionsRaw
      st.msgCounter []).2.1 ≠ [] →
    runToolCall env st toolCall =
      ({ pauseForApproval := false
         output := .errorMsg ("Unknown result IDs: " ++ String.intercalate ", "
           ((processApprovalSuggestions st.session env.genId suggestionsRaw
             st.msgCounter []).2.1.take 5))
         events := [] },
       { st with
         executedToolCalls := st.executedToolCalls ++ [toolCall.id]
         msgCounter := (processApprovalSuggestions st.session env.genId
           suggestionsRaw st.msgCounter []).2.2 }) ∧
    ((processApprovalSuggestions st.session env.genId suggestionsRaw
      st.msgCounter []).2.1.take 5).length ≤ 5 := by
  intro env st toolCall v suggestionsRaw hname hparse hsugg hlen0 hlen8 hunknown
  constructor
  · unfold runToolCall
    rw [hparse]
    dsimp only
    rw [if_neg (by rw [hname]; decide), if_pos hname, hsugg]
    dsimp only
    rw [if_neg (by
      rintro (h | h)
      · exact hlen0 h
      · exact absurd h (Nat.not_lt.2 hlen8))]
    rw [if_pos (List.length_pos.2 hunknown)]
  · exact List.length_take_le 5 _

/-! ## Concrete agent fixtures for witnesses -/

/-- A stored food snapshot under local result id r1. -/
def sampleFood : SearchResultFood := { resultId := "r1", name := "Oats" }

/-- A live session owning result id r1 with no pending approvals. -/
def sampleAgentSession : AgentSession :=
  { id := "s1", userId := "u1", conversation := [], searchResultCounter := 2
    searchResultsByLocalId := [("r1", sampleFood)], pendingApprovals := []
    updatedAt := 0 }

/-- Valid approval-tool arguments referencing the known result id r1. -/
def sampleApprovalArgs : JsVal :=
  .vObj [("suggestions", .vArr [.vObj [("resultId", .vStr "r1"),
    ("meal", .vStr "lunch"), ("reason", .vStr "x")]])]

/-- An agent environment whose model always answers with one
`requestFoodApprovals` call. -/
def sampleAgentEnv : AgentEnv :=
  { search := sampleSearchEnv
    chat := fun _ =>
      { assistantText := ""
        toolCalls := [⟨"t1", "requestFoodApprovals", .value sampleApprovalArgs⟩] }
    genId := fun n => "g" ++ toString n
    now := 10 }

/-- The request state serving `sampleAgentSession`. -/
def sampleAState : AState :=
  { db := sampleDb, session := sampleAgentSession, msgCounter := 0
    modelCalls := 0, executedToolCalls := [], searchCalls := 0 }

/-- An approval tool call whose single suggestion references the unknown
result id r9. -/
def unknownIdCall : ToolCallRec :=
  ⟨"t9", "requestFoodApprovals",
   .value (.vObj [("suggestions", .vArr [.vObj [("resultId", .vStr "r9")]])])⟩

/-- Witness for `agent_loop_pause_semantics`: with the sample environment,
whose first model turn issues one valid `requestFoodApprovals` call, the
loop run ends awaiting approval after exactly one model call. -/
theorem agent_loop_pause_semantics_witness :
    (runAssistantLoop sampleAgentEnv 8 sampleAState []).1 =
      AgentStatus.awaitingApproval ∧
    (runAssistantLoop sampleAgentEnv 8 sampleAState []).2.2.modelCalls = 1 := by
  have h := agent_loop_pause_semantics.2.2.2 sampleAgentEnv 7 sampleAState []
    (fun hcontra => List.noConfusion hcontra) rfl
  constructor
  · show (runAssistantLoop sampleAgentEnv (7 + 1) sampleAState []).1 =
      AgentStatus.awaitingApproval
    rw [h.1]
  · show (runAssistantLoop sampleAgentEnv (7 + 1) sampleAState []).2.2.modelCalls = 1
    rw [h.1]
    exact h.2

/-- Witness for `requestFoodApprovals_atomic`: the unknown id r9 rejects
the whole batch with an error listing it, without pausing and without
touching the session. -/
theorem requestFoodApprovals_atomic_witness :
    (runToolCall sampleAgentEnv sampleAState unknownIdCall).1.pauseForApproval = false ∧
    (runToolCall sampleAgentEnv sampleAState unknownIdCall).1.output =
      .errorMsg "Unknown result IDs: r9" ∧
    (runToolCall sampleAgentEnv sampleAState unknownIdCall).2.session =
      sampleAState.session := by
  have h := requestFoodApprovals_atomic sampleAgentEnv sampleAState unknownIdCall
    (.vObj [("suggestions", .vArr [.vObj [("resultId", .vStr "r9")]])])
    [.vObj [("resultId", .vStr "r9")]] rfl rfl rfl
    (by decide) (by decide) (fun hcontra => List.noConfusion hcontra)
  refine ⟨?_, ?_, ?_⟩ <;> rw [h.1]
  rfl

/-! ## Theorems about idle eviction and pending-approval gating -/

theorem mapGet_eq_none_of_keys {β : Type} {l : List (String × β)} {k : String}
    (h : ∀ p ∈ l, p.1 ≠ k) : mapGet l k = none := by
  unfold mapGet
  rw [List.find?_eq_none.2 (by intro p hp; simpa using h p hp)]
  rfl

theorem mapGet_prune_stale {now : Int} {id : String} {s : AgentSession} :
    ∀ store : List (String × AgentSession),
    (store.map Prod.fst).Nodup →
    mapGet store id = some s →
    maxAiSessionIdleMs < now - s.updatedAt →
    mapGet (pruneOldAiSessions now store) id = none := by
  intro store
  induction store with
  | nil => intro _ hm _; exact Option.noConfusion hm
  | cons p rest ih =>
      intro hn hm hstale
      rw [List.map_cons] at hn
      obtain ⟨hk, hrest⟩ := List.nodup_cons.1 hn
      by_cases hkid : p.1 = id
      · have hv : p.2 = s := by
          unfold mapGet at hm
          rw [List.find?_cons_of_pos _ (by simpa using hkid)] at hm
          simpa using hm
        unfold pruneOldAiSessions
        rw [List.filter_cons_of_neg (by simp [hv, hstale])]
        refine mapGet_eq_none_of_keys ?_
        intro q hq
        have hq2 : q ∈ rest := List.mem_of_mem_filter hq
        intro hqk
        exact hk (by rw [hkid, ← hqk]; exact List.mem_map_of_mem Prod.fst hq2)
      · have hm2 : mapGet rest id = some s := by
          unfold mapGet at hm ⊢
          rw [List.find?_cons_of_neg _ (by simpa using hkid)] at hm
          exact hm
        have htail := ih hrest hm2 hstale
        unfold pruneOldAiSessions at htail ⊢
        by_cases hkeep : maxAiSessionIdleMs < now - p.2.updatedAt
        · rw [List.filter_cons_of_neg (by simp [hkeep])]
          exact htail
        · rw [List.filter_cons_of_pos (by simp [hkeep])]
          unfold mapGet at htail ⊢
          rw [List.find?_cons_of_neg _ (by simpa using hkid)]
          exact htail

theorem mapGet_prune_fresh {now : Int} {id : String} {s : AgentSession} :
    ∀ store : List (String × AgentSession),
    mapGet store id = some s →
    ¬(maxAiSessionIdleMs < now - s.updatedAt) →
    mapGet (pruneOldAiSessions now store) id = some s := by
  intro store
  induction store with
  | nil => intro hm _; exact Option.noConfusion hm
  | cons p rest ih =>
      intro hm hfresh
      by_cases hkid : p.1 = id
      · have hv : p.2 = s := by
          unfold mapGet at hm
          rw [List.find?_cons_of_pos _ (by simpa using hkid)] at hm
          simpa using hm
        unfold pruneOldAiSessions
        rw [List.filter_cons_of_pos (by simp [hv, hfresh])]
        unfold mapGet
        rw [List.find?_cons_of_pos _ (by simpa using hkid)]
        simpa using hv
      · have hm2 : mapGet rest id = some s := by
          unfold mapGet at hm ⊢
          rw [List.find?_cons_of_neg _ (by simpa using hkid)] at hm
          exact hm
        have htail := ih hm2
        unfold pruneOldAiSessions at htail ⊢
        by_cases hkeep : maxAiSessionIdleMs < now - p.2.updatedAt
        · rw [List.filter_cons_of_neg (by simp [hkeep])]
          exact htail hfresh
        · rw [List.filter_cons_of_pos (by simp [hkeep])]
          unfold mapGet at htail ⊢
          rw [List.find?_cons_of_neg _ (by simpa using hkid)]
          exact htail hfresh

/-- C9: idle eviction.  A session idle strictly longer than 8 hours is
removed by the prune pass; a session idle at most the threshold is
retained; and a turn request addressing an evicted session fails with the
403 "Session not found for this user" client error after the prune pass
(which `handleAiTurn` runs before dispatching, as does session start). -/
theorem idle_sessions_evicted :
    (∀ (now : Int) (store : List (String × AgentSession)) (id : String)
        (s : AgentSession),
      (store.map Prod.fst).Nodup →
      mapGet store id = some s →
      maxAiSessionIdleMs < now - s.updatedAt →
      mapGet (pruneOldAiSessions now store) id = none) ∧
    (∀ (now : Int) (store : List (String × AgentSession)) (id : String)
        (s : AgentSession),
      mapGet store id = some s →
      ¬(maxAiSessionIdleMs < now - s.updatedAt) →
      mapGet (pruneOldAiSessions now store) id = some s) ∧
    (∀ (env : AgentEnv) (db : Db) (store : List (String × AgentSession))
        (sessionId userId : String) (action : TurnAction) (s : AgentSession),
      (store.map Prod.fst).Nodup →
      sessionId ≠ "" → userId ≠ "" → action.actionType ≠ "" →
      mapGet store sessionId = some s →
      maxAiSessionIdleMs < env.now - s.updatedAt →
      handleAiTurn env db store sessionId userId action =
        { response := ⟨403, .errorMsg "Session not found for this user"⟩
          store := pruneOldAiSessions env.now store, db := db, modelCalls := 0 }) := by
  refine ⟨fun now store id s => mapGet_prune_stale store,
    fun now store id s => mapGet_prune_fresh store, ?_⟩
  intro env db store sessionId userId action s hn hsid huid hact hm hstale
  have hnone : requireSessionOwner (pruneOldAiSessions env.now store)
      sessionId userId = none := by
    unfold requireSessionOwner
    rw [mapGet_prune_stale store hn hm hstale]
  simp only [handleAiTurn]
  rw [if_neg (by rintro (h | h); exacts [hsid h, huid h]), if_neg hact, hnone]

/-- C10: a user message cannot interleave with an unresolved approval
batch.  A `user-message` turn against a session with a non-empty
pending-approvals mapping is rejected with 409 "Resolve pending approvals
before sending a new message.", the conversation history is unchanged (the
session is stored back with only its activity timestamp refreshed), and no
chat-completion call is issued. -/
theorem pending_approvals_block_user_message :
    ∀ (env : AgentEnv) (db : Db) (store : List (String × AgentSession))
      (sessionId userId message : String) (s : AgentSession),
    sessionId ≠ "" → userId ≠ "" →
    mapGet (pruneOldAiSessions env.now store) sessionId = some s →
    s.userId = userId →
    jsTrim message ≠ "" →
    s.pendingApprovals ≠ [] →
    handleAiTurn env db store sessionId userId (.userMessage (some message)) =
      { response :=
          ⟨409, .errorMsg "Resolve pending approvals before sending a new message."⟩
        store := mapSet (pruneOldAiSessions env.now store) sessionId
          { s with updatedAt := env.now }
        db := db, modelCalls := 0 } := by
  intro env db store sessionId userId message s hsid huid hm howner hmsg hpend
  have hown : requireSessionOwner (pruneOldAiSessions env.now store)
      sessionId userId = some s := by
    unfold requireSessionOwner
    rw [hm]
    dsimp only
    rw [if_pos howner]
  simp only [handleAiTurn]
  rw [if_neg (by rintro (h | h); exacts [hsid h, huid h]),
    if_neg (by simp [TurnAction.actionType] :
      ¬(TurnAction.userMessage (some message)).actionType = ""), hown]
  dsimp only
  rw [if_neg (by simpa using hmsg)]
  rw [if_pos (by simpa using List.length_pos.2 hpend)]

/-- An environment observed 8 hours and 1 ms after the sample session's
last activity. -/
def staleEnv : AgentEnv := { sampleAgentEnv with now := 28800001 }

/-- Witness for `idle_sessions_evicted`: against a store holding only the
sample session (last active at 0), a request at time 28800001 finds the
session pruned and is answered 403. -/
theorem idle_sessions_evicted_witness :
    handleAiTurn staleEnv sampleDb [("s1", sampleAgentSession)] "s1" "u1"
        (.other "session-info") =
      { response := ⟨403, .errorMsg "Session not found for this user"⟩
        store := pruneOldAiSessions staleEnv.now [("s1", sampleAgentSession)]
        db := sampleDb, modelCalls := 0 } :=
  idle_sessions_evicted.2.2 staleEnv sampleDb [("s1", sampleAgentSession)] "s1" "u1"
    (.other "session-info") sampleAgentSession (by decide) (by decide) (by decide)
    (by decide) rfl (by decide)

/-- One already-resolved-free pending suggestion for tool call t1. -/
def sampleSuggestion : ResolvedApprovalSuggestion :=
  { suggestionId := "g1", resultId := "r1", meal := .lunch, portion := 1
    reason := "x", food := sampleFood }

/-- The sample session blocked on one pending approval batch. -/
def pendingSession : AgentSession :=
  { sampleAgentSession with pendingApprovals := [("t1", [sampleSuggestion])] }

/-- Witness for `pending_approvals_block_user_message`: a user message to
the session holding the pending t1 batch is answered 409 with the session
stored back unchanged except for its timestamp. -/
theorem pending_approvals_block_user_message_witness :
    handleAiTurn sampleAgentEnv sampleDb [("s1", pendingSession)] "s1" "u1"
        (.userMessage (some "hi")) =
      { response :=
          ⟨409, .errorMsg "Resolve pending approvals before sending a new message."⟩
        store := mapSet (pruneOldAiSessions sampleAgentEnv.now [("s1", pendingSession)])
          "s1" { pendingSession with updatedAt := sampleAgentEnv.now }
        db := sampleDb, modelCalls := 0 } :=
  pending_approvals_block_user_message sampleAgentEnv sampleDb
    [("s1", pendingSession)] "s1" "u1" "hi" pendingSession
    (by decide) (by decide) rfl rfl (by decide) (by decide)


/-! ## Theorems about incremental approval resolution -/

theorem mapGet_mapDelete {β : Type} (m : List (String × β)) (k : String) :
    mapGet (mapDelete m k) k = none := by
  refine mapGet_eq_none_of_keys ?_
  intro p hp
  have h := List.mem_filter.1 hp
  simpa using h.2

theorem runAssistantLoop_modelCalls_le (env : AgentEnv) :
    ∀ (fuel : Nat) (st : AState) (events : List AgentEvent),
    st.modelCalls ≤ (runAssistantLoop env fuel st events).2.2.modelCalls := by
  intro fuel
  induction fuel with
  | zero => intro st events; exact le_refl _
  | succ fuel ih =>
      intro st events
      simp only [runAssistantLoop]
      split
      · exact Nat.le_succ _
      · split
        · rw [runToolBatch_modelCalls]
          exact Nat.le_succ _
        · exact le_trans (Nat.le_succ _)
            (by
              have h := ih (runToolBatch env (beginTurn env st).1.toolCalls
                (beginTurn env st).2
                (events ++ assistantEvents (beginTurn env st).1)).2.2
                (runToolBatch env (beginTurn env st).1.toolCalls
                  (beginTurn env st).2
                  (events ++ assistantEvents (beginTurn env st).1)).2.1
              rw [runToolBatch_modelCalls] at h
              exact h)

theorem runAssistantLoop_succ_modelCalls (env : AgentEnv) (fuel : Nat)
    (st : AState) (events : List AgentEvent) :
    st.modelCalls + 1 ≤ (runAssistantLoop env (fuel + 1) st events).2.2.modelCalls := by
  simp only [runAssistantLoop]
  split
  · exact le_refl _
  · split
    · rw [runToolBatch_modelCalls]
      exact le_refl _
    · have h := runAssistantLoop_modelCalls_le env fuel
        (runToolBatch env (beginTurn env st).1.toolCalls (beginTurn env st).2
          (events ++ assistantEvents (beginTurn env st).1)).2.2
        (runToolBatch env (beginTurn env st).1.toolCalls (beginTurn env st).2
          (events ++ assistantEvents (beginTurn env st).1)).2.1
      rw [runToolBatch_modelCalls] at h
      exact h

theorem runAssistantLoopTop_modelCalls_pos (env : AgentEnv) (st : AState) :
    st.modelCalls + 1 ≤ (runAssistantLoopTop env st).2.2.modelCalls :=
  runAssistantLoop_succ_modelCalls env 7 st []

/-- The request state from which the loop is resumed after a fully resolved
approval batch: the batch deleted from the pending mapping and the decisions
tool turn appended. -/
def approvalResumeState (env : AgentEnv) (db : Db) (s : AgentSession)
    (toolCallId : String) (next : List ResolvedApprovalSuggestion) : AState :=
  { db := db
    session := { s with
      updatedAt := env.now
      conversation := s.conversation ++ [toolDecisionsMsg toolCallId (decisionsOf next)]
      pendingApprovals := mapDelete s.pendingApprovals toolCallId }
    msgCounter := 0, modelCalls := 0, executedToolCalls := [], searchCalls := 0 }

/-- C4: approval resolution is incremental and monotone.  For a valid
`approval` action addressing suggestion `target` at `targetIndex` of the
pending batch `pendingSuggestions` of tool call `toolCallId`:
(a) if the target already carries a resolution, the handler replies
awaiting-approval with no events, zero chat-completion calls, and stores the
session back with the pending mapping untouched (the resolution is not
overwritten); (b) if the target is unresolved and some other suggestion
remains unresolved afterwards, the handler replies awaiting-approval with no
events, zero chat-completion calls, and only marks the target resolved in the
mapping; (c) once the decision resolves the last open suggestion, the batch
is deleted from the mapping, one tool turn summarizing all decisions is
appended, and the agent loop is resumed, issuing at least one
chat-completion call. -/
theorem approval_resolution_incremental
    (env : AgentEnv) (db : Db) (store : List (String × AgentSession))
    (sessionId userId toolCallId suggestionId : String) (approved : Bool)
    (s : AgentSession) (pendingSuggestions : List ResolvedApprovalSuggestion)
    (targetIndex : Nat) (target : ResolvedApprovalSuggestion)
    (hsid : sessionId ≠ "") (huid : userId ≠ "")
    (htc : toolCallId ≠ "") (hsg : suggestionId ≠ "")
    (hm : mapGet (pruneOldAiSessions env.now store) sessionId = some s)
    (howner : s.userId = userId)
    (hpend : mapGet s.pendingApprovals toolCallId = some pendingSuggestions)
    (hidx : pendingSuggestions.findIdx?
      (fun x => x.suggestionId = suggestionId) = some targetIndex)
    (htarget : pendingSuggestions[targetIndex]? = some target) :
    (target.output.isSome = true →
      handleAiTurn env db store sessionId userId
          (.approval toolCallId suggestionId approved) =
        { response := ⟨200, .turnOk .awaitingApproval [] none⟩
          store := mapSet (pruneOldAiSessions env.now store) sessionId
            { s with updatedAt := env.now }
          db := db, modelCalls := 0 }) ∧
    (target.output = none →
      (resolveSuggestionAt pendingSuggestions targetIndex approved).all
        (fun x => x.output.isSome) = false →
      handleAiTurn env db store sessionId userId
          (.approval toolCallId suggestionId approved) =
        { response := ⟨200, .turnOk .awaitingApproval [] none⟩
          store := mapSet (pruneOldAiSessions env.now store) sessionId
            { s with
              updatedAt := env.now
              pendingApprovals := mapSet s.pendingApprovals toolCallId
                (resolveSuggestionAt pendingSuggestions targetIndex approved) }
          db := db, modelCalls := 0 }) ∧
    (target.output = none →
      (resolveSuggestionAt pendingSuggestions targetIndex approved).all
        (fun x => x.output.isSome) = true →
      handleAiTurn env db store sessionId userId
          (.approval toolCallId suggestionId approved) =
        { response := ⟨200, .turnOk
            (runAssistantLoopTop env (approvalResumeState env db s toolCallId
              (resolveSuggestionAt pendingSuggestions targetIndex approved))).1
            (runAssistantLoopTop env (approvalResumeState env db s toolCallId
              (resolveSuggestionAt pendingSuggestions targetIndex approved))).2.1
            none⟩
          store := mapSet (pruneOldAiSessions env.now store) sessionId
            { (runAssistantLoopTop env (approvalResumeState env db s toolCallId
                (resolveSuggestionAt pendingSuggestions targetIndex
                  approved))).2.2.session with updatedAt := env.now }
          db := (runAssistantLoopTop env (approvalResumeState env db s toolCallId
            (resolveSuggestionAt pendingSuggestions targetIndex approved))).2.2.db
          modelCalls := (runAssistantLoopTop env (approvalResumeState env db s
            toolCallId (resolveSuggestionAt pendingSuggestions targetIndex
              approved))).2.2.modelCalls } ∧
      mapGet (approvalResumeState env db s toolCallId
        (resolveSuggestionAt pendingSuggestions targetIndex
          approved)).session.pendingApprovals toolCallId = none ∧
      1 ≤ (runAssistantLoopTop env (approvalResumeState env db s toolCallId
        (resolveSuggestionAt pendingSuggestions targetIndex
          approved))).2.2.modelCalls) := by
  have hown : requireSessionOwner (pruneOldAiSessions env.now store)
      sessionId userId = some s := by
    unfold requireSessionOwner
    rw [hm]
    dsimp only
    rw [if_pos howner]
  refine ⟨?_, ?_, ?_⟩
  · intro hout
    simp only [handleAiTurn]
    rw [if_neg (by rintro (h | h); exacts [hsid h, huid h]),
      if_neg (by simp [TurnAction.actionType] :
        ¬(TurnAction.approval toolCallId suggestionId approved).actionType = ""),
      hown]
    dsimp only
    rw [if_neg (by rintro (h | h); exacts [htc h, hsg h]), hpend]
    dsimp only
    rw [hidx]
    dsimp only
    rw [htarget]
    dsimp only
    rw [if_pos hout]
  · intro hout hall
    simp only [handleAiTurn]
    rw [if_neg (by rintro (h | h); exacts [hsid h, huid h]),
      if_neg (by simp [TurnAction.actionType] :
        ¬(TurnAction.approval toolCallId suggestionId approved).actionType = ""),
      hown]
    dsimp only
    rw [if_neg (by rintro (h | h); exacts [htc h, hsg h]), hpend]
    dsimp only
    rw [hidx]
    dsimp only
    rw [htarget]
    dsimp only
    rw [hout]
    rw [if_neg (by simp)]
    rw [hall]
    rw [if_pos (by decide)]
  · intro hout hall
    refine ⟨?_, mapGet_mapDelete _ _,
      runAssistantLoopTop_modelCalls_pos env (approvalResumeState env db s
        toolCallId (resolveSuggestionAt pendingSuggestions targetIndex approved))⟩
    simp only [handleAiTurn]
    rw [if_neg (by rintro (h | h); exacts [hsid h, huid h]),
      if_neg (by simp [TurnAction.actionType] :
        ¬(TurnAction.approval toolCallId suggestionId approved).actionType = ""),
      hown]
    dsimp only
    rw [if_neg (by rintro (h | h); exacts [htc h, hsg h]), hpend]
    dsimp only
    rw [hidx]
    dsimp only
    rw [htarget]
    dsimp only
    rw [hout]
    rw [if_neg (by simp)]
    rw [hall]
    rw [if_neg (by decide)]
    rfl

/-- A second unresolved suggestion for the same batch. -/
def sampleSuggestion2 : ResolvedApprovalSuggestion :=
  { sampleSuggestion with suggestionId := "g2" }

/-- The sample session blocked on a two-suggestion pending batch. -/
def twoPendingSession : AgentSession :=
  { sampleAgentSession with
    pendingApprovals := [("t1", [sampleSuggestion, sampleSuggestion2])] }

/-- Witness for `approval_resolution_incremental`: approving g1 while g2 is
still open replies awaiting-approval with no events and no model call, and
only marks g1 resolved in the pending mapping. -/
theorem approval_resolution_incremental_witness :
    handleAiTurn sampleAgentEnv sampleDb [("s1", twoPendingSession)] "s1" "u1"
        (.approval "t1" "g1" true) =
      { response := ⟨200, .turnOk .awaitingApproval [] none⟩
        store := mapSet
          (pruneOldAiSessions sampleAgentEnv.now [("s1", twoPendingSession)]) "s1"
          { twoPendingSession with
            updatedAt := sampleAgentEnv.now
            pendingApprovals := mapSet twoPendingSession.pendingApprovals "t1"
              (resolveSuggestionAt [sampleSuggestion, sampleSuggestion2] 0 true) }
        db := sampleDb, modelCalls := 0 } :=
  (approval_resolution_incremental sampleAgentEnv sampleDb
      [("s1", twoPendingSession)] "s1" "u1" "t1" "g1" true twoPendingSession
      [sampleSuggestion, sampleSuggestion2] 0 sampleSuggestion
      (by decide) (by decide) (by decide) (by decide)
      rfl rfl rfl rfl rfl).2.1 rfl rfl

end Caloric





